import Mathlib

/-!
Shallow embedding of the E_Botar anonymous ballot submission and tally engine
(`backend/apps/voting`, `backend/apps/elections`, `backend/apps/common/algorithms.py`),
with proofs about the embedded operations.

Modelling conventions:
* Django rows become Lean structures; the database becomes a record of lists
  (insertion order = list order, as in the default unordered querysets).
* `timezone.now()` is passed explicitly as an `Int` timestamp `now`.
* `hashlib.sha256(...).hexdigest()` is an arbitrary fixed digest function
  `H : String → String`, passed as a parameter (the code never relies on any
  property of the digest beyond determinism).
* Python `int` values (vote counts, ids) are `Nat`/`Int`; Python floats in the
  percentage computations are exact rationals `ℚ`, with `round(x, 2)` modelled
  as rounding to the nearest multiple of 1/100 (the claims under study never
  exercise the float tie-breaking behaviour).
* Python lists indexed in place are `List α` with `getI`/`swapL` below;
  `for j in range(low, high)` becomes a fold over `List.range' low (high - low)`.
-/

set_option maxHeartbeats 1600000

namespace EBotar

/-! ### List index helpers: Python `arr[i]` reads and `arr[i], arr[j] = arr[j], arr[i]` swaps -/

variable {α : Type} [Inhabited α]

/-- Python `arr[i]`. All uses in the embedded algorithms are in bounds, so the
`default` fallback is never exercised on the real control paths. -/
def getI (l : List α) (i : Nat) : α := l.getD i default

/-- Python `arr[i], arr[j] = arr[j], arr[i]`. -/
def swapL (l : List α) (i j : Nat) : List α :=
  (l.set i (getI l j)).set j (getI l i)

theorem getI_eq_getElem (l : List α) (i : Nat) (h : i < l.length) :
    getI l i = l[i] := by
  simp [getI, List.getD_eq_getElem?_getD, List.getElem?_eq_getElem h]

theorem getI_cons_zero (a : α) (t : List α) : getI (a :: t) 0 = a := rfl

theorem getI_cons_succ (a : α) (t : List α) (k : Nat) :
    getI (a :: t) (k + 1) = getI t k := rfl

@[simp] theorem length_swapL (l : List α) (i j : Nat) :
    (swapL l i j).length = l.length := by
  simp [swapL]

theorem getI_set_eq (l : List α) (i : Nat) (a : α) (h : i < l.length) :
    getI (l.set i a) i = a := by
  simp [getI, List.getD_eq_getElem?_getD, List.getElem?_set_self h]

theorem getI_set_ne (l : List α) (i j : Nat) (a : α) (hne : i ≠ j) :
    getI (l.set i a) j = getI l j := by
  simp [getI, List.getD_eq_getElem?_getD, List.getElem?_set_ne hne]

theorem set_getI_self (l : List α) (i : Nat) (h : i < l.length) :
    l.set i (getI l i) = l := by
  rw [getI_eq_getElem l i h]
  apply List.ext_getElem
  · simp
  · intro n h1 h2
    simp only [List.getElem_set]
    by_cases he : i = n
    · subst he; simp
    · simp [he]

theorem swapL_self (l : List α) (i : Nat) (h : i < l.length) :
    swapL l i i = l := by
  rw [swapL, List.set_set, set_getI_self l i h]

theorem getI_swapL_right (l : List α) (i j : Nat) (hj : j < l.length) :
    getI (swapL l i j) j = getI l i := by
  rw [swapL, getI_set_eq]
  simpa using hj

theorem getI_swapL_left (l : List α) (i j : Nat) (hi : i < l.length)
    (hne : i ≠ j) : getI (swapL l i j) i = getI l j := by
  rw [swapL, getI_set_ne _ _ _ _ (Ne.symm hne), getI_set_eq _ _ _ hi]

theorem getI_swapL_other (l : List α) (i j k : Nat) (hki : k ≠ i) (hkj : k ≠ j) :
    getI (swapL l i j) k = getI l k := by
  rw [swapL, getI_set_ne _ _ _ _ (Ne.symm hkj), getI_set_ne _ _ _ _ (Ne.symm hki)]

theorem getI_cons_set_perm (t : List α) (k : Nat) (a : α) (hk : k < t.length) :
    (getI t k :: t.set k a).Perm (a :: t) := by
  induction t generalizing k with
  | nil => simp at hk
  | cons b s ih =>
    cases k with
    | zero =>
      simpa [getI_cons_zero] using List.Perm.swap a b s
    | succ m =>
      have hm : m < s.length := by simpa using hk
      have h0 : (getI (b :: s) (m + 1) :: (b :: s).set (m + 1) a)
          = getI s m :: b :: s.set m a := by simp [getI_cons_succ]
      rw [h0]
      have h1 : (getI s m :: b :: s.set m a).Perm (b :: getI s m :: s.set m a) :=
        List.Perm.swap _ _ _
      have h2 : (b :: getI s m :: s.set m a).Perm (b :: a :: s) :=
        List.Perm.cons b (ih m hm)
      have h3 : (b :: a :: s).Perm (a :: b :: s) := List.Perm.swap _ _ _
      exact (h1.trans h2).trans h3

theorem swapL_perm (l : List α) (i j : Nat) (hi : i < l.length)
    (hj : j < l.length) : (swapL l i j).Perm l := by
  induction l generalizing i j with
  | nil => simp at hi
  | cons a t ih =>
    cases i with
    | zero =>
      cases j with
      | zero => rw [swapL_self _ _ hi]
      | succ m =>
        have hm : m < t.length := by simpa using hj
        have : swapL (a :: t) 0 (m + 1) = getI t m :: t.set m a := by
          simp [swapL, getI_cons_succ, getI_cons_zero]
        rw [this]
        exact getI_cons_set_perm t m a hm
    | succ n =>
      cases j with
      | zero =>
        have hn : n < t.length := by simpa using hi
        have : swapL (a :: t) (n + 1) 0 = getI t n :: t.set n a := by
          simp [swapL, getI_cons_succ, getI_cons_zero]
        rw [this]
        exact getI_cons_set_perm t n a hn
      | succ m =>
        have hn : n < t.length := by simpa using hi
        have hm : m < t.length := by simpa using hj
        have : swapL (a :: t) (n + 1) (m + 1) = a :: swapL t n m := by
          simp [swapL, getI_cons_succ]
        rw [this]
        exact List.Perm.cons a (ih n m hn hm)

/-! ### `SortingAlgorithm.quicksort` (apps/common/algorithms.py)

Lomuto partition scheme, in-place on a copied list, with an optional key
function and a `reverse` flag.  The Python loop variable `i` starts at
`low - 1` and is only ever used as `i + 1`; the embedding tracks `i1 = i + 1`
directly so that indices stay in `Nat`.  The recursion in
`_quicksort_helper` is bounded by an explicit `fuel` counter (structural
recursion); `quicksort` supplies `fuel = arr.length`, which always suffices
because each recursive call shrinks the segment `[low, high]` by at least
the pivot position. -/

namespace SortingAlgorithm

/-- One iteration of the Lomuto partition loop body (`for j in range(low, high)`):
compare `key(arr[j])` against the pivot value and conditionally swap-and-advance. -/
def partitionStep (key : α → Int) (reverse : Bool) (pivot_val : Int) :
    (List α × Nat) → Nat → (List α × Nat) := fun s j =>
  let current_val := key (getI s.1 j)
  let compare : Bool :=
    if reverse then decide (current_val ≥ pivot_val) else decide (current_val ≤ pivot_val)
  if compare then (swapL s.1 s.2 j, s.2 + 1) else s

/-- `SortingAlgorithm._partition`: Lomuto partition of `arr[low..high]` around
the pivot `arr[high]`; returns the updated list and the pivot's final index. -/
def partition (key : α → Int) (reverse : Bool) (arr : List α) (low high : Nat) :
    List α × Nat :=
  let pivot_val := key (getI arr high)
  let s := (List.range' low (high - low)).foldl (partitionStep key reverse pivot_val) (arr, low)
  (swapL s.1 s.2 high, s.2)

/-- `SortingAlgorithm._quicksort_helper`, with a structural fuel bound on the
recursion depth.  A Python call `_quicksort_helper(arr, low, -1)` (when the
pivot lands at index 0) is a no-op; the `Nat` truncation `0 - 1 = 0` produces
the call `(low, 0)` with `low = 0`, which is equally a no-op. -/
def quicksortHelper (key : α → Int) (reverse : Bool) :
    Nat → List α → Nat → Nat → List α
  | 0, arr, _, _ => arr
  | fuel + 1, arr, low, high =>
    if low < high then
      let p := partition key reverse arr low high
      quicksortHelper key reverse fuel
        (quicksortHelper key reverse fuel p.1 low (p.2 - 1)) (p.2 + 1) high
    else arr

/-- `SortingAlgorithm.quicksort(arr, key, reverse)`. -/
def quicksort (key : α → Int) (reverse : Bool) (arr : List α) : List α :=
  if arr.length ≤ 1 then arr
  else quicksortHelper key reverse arr.length arr 0 (arr.length - 1)

/-- Loop invariant for the Lomuto partition fold, specialised to the
descending (`reverse = true`) use in the results view.  `s = (arr, i1)` with
`i1 = i + 1`; `j` is the next loop index. -/
structure PartLoopInv (key : α → Int) (P : α → Prop) (a0 : List α) (low high : Nat)
    (s : List α × Nat) (j : Nat) : Prop where
  len : s.1.length = a0.length
  perm : s.1.Perm a0
  frame : ∀ k, k < low ∨ high ≤ k → getI s.1 k = getI a0 k
  lo : low ≤ s.2
  hi : s.2 ≤ j
  jhi : j ≤ high
  left : ∀ k, low ≤ k → k < s.2 → key (getI a0 high) ≤ key (getI s.1 k)
  mid : ∀ k, s.2 ≤ k → k < j → key (getI s.1 k) < key (getI a0 high)
  seg : ∀ k, low ≤ k → k ≤ high → P (getI s.1 k)

theorem partitionStep_inv {key : α → Int} {P : α → Prop} {a0 : List α}
    {low high : Nat} (hh : high < a0.length) {s : List α × Nat} {j : Nat}
    (hj : j < high) (inv : PartLoopInv key P a0 low high s j) :
    PartLoopInv key P a0 low high
      (partitionStep key true (key (getI a0 high)) s j) (j + 1) := by
  obtain ⟨a, i1⟩ := s
  obtain ⟨len, perm, frame, lo, hi, jhi, left, mid, seg⟩ := inv
  dsimp only at len perm frame lo hi jhi left mid seg
  have hjlen : j < a.length := by omega
  have hi1len : i1 < a.length := by omega
  have hi1high : i1 < high := by omega
  by_cases hc : key (getI a j) ≥ key (getI a0 high)
  · -- comparison succeeds: swap arr[i1] and arr[j], advance i1
    have hstep : partitionStep key true (key (getI a0 high)) (a, i1) j
        = (swapL a i1 j, i1 + 1) := by
      simp [partitionStep, hc]
    rw [hstep]
    have hswap_i1 : getI (swapL a i1 j) i1 = getI a j := by
      by_cases hij : i1 = j
      · subst hij; rw [swapL_self a i1 hi1len]
      · exact getI_swapL_left a i1 j hi1len hij
    refine ⟨?_, ?_, ?_, ?_, ?_, ?_, ?_, ?_, ?_⟩
    · simpa using len
    · exact (swapL_perm a i1 j hi1len hjlen).trans perm
    · intro k hk
      rw [getI_swapL_other a i1 j k (by omega) (by omega)]
      exact frame k hk
    · omega
    · omega
    · omega
    · intro k hklow hk
      rcases Nat.lt_succ_iff_lt_or_eq.mp hk with hklt | hkeq
      · rw [getI_swapL_other a i1 j k (by omega) (by omega)]
        exact left k hklow hklt
      · rw [hkeq, hswap_i1]; exact hc
    · intro k hk1 hk2
      rcases Nat.lt_succ_iff_lt_or_eq.mp hk2 with hklt | hkeq
      · rw [getI_swapL_other a i1 j k (by omega) (by omega)]
        exact mid k (by omega) hklt
      · rw [hkeq, getI_swapL_right a i1 j hjlen]
        exact mid i1 (by omega) (by omega)
    · intro k hk1 hk2
      by_cases hkj : k = j
      · rw [hkj, getI_swapL_right a i1 j hjlen]
        exact seg i1 (by omega) (by omega)
      · by_cases hki : k = i1
        · rw [hki, hswap_i1]
          exact seg j (by omega) (by omega)
        · rw [getI_swapL_other a i1 j k hki hkj]
          exact seg k hk1 hk2
  · -- comparison fails: state unchanged, j advances
    have hstep : partitionStep key true (key (getI a0 high)) (a, i1) j = (a, i1) := by
      simp [partitionStep, hc]
    rw [hstep]
    refine ⟨len, perm, frame, lo, by omega, by omega, left, ?_, seg⟩
    intro k hk1 hk2
    rcases Nat.lt_succ_iff_lt_or_eq.mp hk2 with hklt | hkeq
    · exact mid k hk1 hklt
    · subst hkeq
      exact lt_of_not_ge hc

theorem partLoop_inv {key : α → Int} {P : α → Prop} {a0 : List α}
    {low high : Nat} (hh : high < a0.length) :
    ∀ (m j : Nat) (s : List α × Nat), j + m = high →
      PartLoopInv key P a0 low high s j →
      PartLoopInv key P a0 low high
        ((List.range' j m).foldl (partitionStep key true (key (getI a0 high))) s) high := by
  intro m
  induction m with
  | zero =>
    intro j s hjm inv
    have : j = high := by omega
    subst this
    simpa using inv
  | succ m ih =>
    intro j s hjm inv
    have hjh : j < high := by omega
    have hrange : List.range' j (m + 1) = j :: List.range' (j + 1) m := by
      simp [List.range'_succ]
    rw [hrange, List.foldl_cons]
    exact ih (j + 1) _ (by omega) (partitionStep_inv hh hjh inv)

/-- Postcondition of `partition` for `reverse = true`: the segment is permuted
with everything `≥` pivot strictly left of the pivot index, everything `<`
pivot strictly right of it, the rest of the list untouched. -/
structure PartSpec (key : α → Int) (P : α → Prop) (a0 : List α) (low high : Nat)
    (r : List α × Nat) : Prop where
  len : r.1.length = a0.length
  perm : r.1.Perm a0
  frame : ∀ k, k < low ∨ high < k → getI r.1 k = getI a0 k
  lo : low ≤ r.2
  hi : r.2 ≤ high
  pivot : key (getI r.1 r.2) = key (getI a0 high)
  left : ∀ k, low ≤ k → k < r.2 → key (getI a0 high) ≤ key (getI r.1 k)
  right : ∀ k, r.2 < k → k ≤ high → key (getI r.1 k) < key (getI a0 high)
  seg : ∀ k, low ≤ k → k ≤ high → P (getI r.1 k)

theorem partition_eq (key : α → Int) (reverse : Bool) (arr : List α)
    (low high : Nat) :
    partition key reverse arr low high =
      (swapL ((List.range' low (high - low)).foldl
          (partitionStep key reverse (key (getI arr high))) (arr, low)).1
        ((List.range' low (high - low)).foldl
          (partitionStep key reverse (key (getI arr high))) (arr, low)).2 high,
       ((List.range' low (high - low)).foldl
          (partitionStep key reverse (key (getI arr high))) (arr, low)).2) := rfl

theorem partition_spec (key : α → Int) (P : α → Prop) (a0 : List α)
    (low high : Nat) (hlh : low ≤ high) (hh : high < a0.length)
    (hseg : ∀ k, low ≤ k → k ≤ high → P (getI a0 k)) :
    PartSpec key P a0 low high (partition key true a0 low high) := by
  have inv0 : PartLoopInv key P a0 low high (a0, low) low :=
    ⟨rfl, List.Perm.refl a0, fun k _ => rfl, Nat.le_refl low, Nat.le_refl low, hlh,
      fun k h1 h2 => absurd h2 (by omega), fun k h1 h2 => absurd h2 (by omega), hseg⟩
  have inv := partLoop_inv hh (high - low) low (a0, low) (by omega) inv0
  rw [partition_eq]
  rcases hF : (List.range' low (high - low)).foldl
      (partitionStep key true (key (getI a0 high))) (a0, low) with ⟨a, i1⟩
  rw [hF] at inv
  obtain ⟨len, perm, frame, lo, hi, jhi, left, mid, seg⟩ := inv
  dsimp only at len perm frame lo hi jhi left mid seg ⊢
  have hi1len : i1 < a.length := by omega
  have hhlen : high < a.length := by omega
  have hpivotval : getI a high = getI a0 high :=
    frame high (Or.inr (Nat.le_refl high))
  refine ⟨?_, ?_, ?_, ?_, ?_, ?_, ?_, ?_, ?_⟩ <;> dsimp only
  · simpa using len
  · exact (swapL_perm a i1 high hi1len hhlen).trans perm
  · intro k hk
    rw [getI_swapL_other a i1 high k (by omega) (by omega)]
    exact frame k (by omega)
  · exact lo
  · omega
  · by_cases hih : i1 = high
    · rw [hih, getI_swapL_right a high high hhlen, hpivotval]
    · rw [getI_swapL_left a i1 high hi1len hih, hpivotval]
  · intro k hk1 hk2
    rw [getI_swapL_other a i1 high k (by omega) (by omega)]
    exact left k hk1 hk2
  · intro k hk1 hk2
    by_cases hkh : k = high
    · rw [hkh, getI_swapL_right a i1 high hhlen]
      exact mid i1 (Nat.le_refl _) (by omega)
    · rw [getI_swapL_other a i1 high k (by omega) hkh]
      exact mid k (by omega) (by omega)
  · intro k hk1 hk2
    by_cases hkh : k = high
    · rw [hkh, getI_swapL_right a i1 high hhlen]
      exact seg i1 (by omega) (by omega)
    · by_cases hki : k = i1
      · rw [hki, getI_swapL_left a i1 high hi1len (by omega), hpivotval]
        exact hseg high hlh (Nat.le_refl high)
      · rw [getI_swapL_other a i1 high k hki hkh]
        exact seg k hk1 hk2

/-- The segment `[low, high]` of `l` is sorted in nonincreasing key order. -/
def SortedSegD (key : α → Int) (l : List α) (low high : Nat) : Prop :=
  ∀ k1 k2, low ≤ k1 → k1 ≤ k2 → k2 ≤ high → k2 < l.length →
    key (getI l k2) ≤ key (getI l k1)

/-- Postcondition of `quicksortHelper` (for `reverse = true`): the segment
`[low, high]` is sorted nonincreasingly, the rest of the list untouched, the
whole list a permutation of the input, and any property `P` that held on every
element of the segment still holds on every element of the segment. -/
structure QSpec (key : α → Int) (P : α → Prop) (a0 : List α) (low high : Nat)
    (r : List α) : Prop where
  len : r.length = a0.length
  perm : r.Perm a0
  frame : ∀ k, k < low ∨ high < k → getI r k = getI a0 k
  seg : ∀ k, low ≤ k → k ≤ high → P (getI r k)
  sorted : SortedSegD key r low high

theorem quicksortHelper_trivial (key : α → Int) (P : α → Prop) (a0 : List α)
    (low high : Nat) (hlh : high ≤ low)
    (hseg : ∀ k, low ≤ k → k ≤ high → P (getI a0 k)) :
    QSpec key P a0 low high a0 :=
  ⟨rfl, List.Perm.refl a0, fun _ _ => rfl, hseg,
    fun k1 k2 h1 h12 h2 _ => by
      have : k1 = k2 := by omega
      rw [this]⟩

theorem quicksortHelper_spec (key : α → Int) :
    ∀ (fuel : Nat) (a0 : List α) (low high : Nat) (P : α → Prop),
      high < a0.length → (high - low < fuel ∨ high ≤ low) →
      (∀ k, low ≤ k → k ≤ high → P (getI a0 k)) →
      QSpec key P a0 low high (quicksortHelper key true fuel a0 low high) := by
  intro fuel
  induction fuel with
  | zero =>
    intro a0 low high P hh hfuel hseg
    have hle : high ≤ low := by omega
    exact quicksortHelper_trivial key P a0 low high hle hseg
  | succ fuel ih =>
    intro a0 low high P hh hfuel hseg
    by_cases hlh : low < high
    · have hunf : quicksortHelper key true (fuel + 1) a0 low high
          = quicksortHelper key true fuel
              (quicksortHelper key true fuel (partition key true a0 low high).1 low
                ((partition key true a0 low high).2 - 1))
              ((partition key true a0 low high).2 + 1) high := by
        simp only [quicksortHelper]
        rw [if_pos hlh]
      rw [hunf]
      have ps := partition_spec key P a0 low high (Nat.le_of_lt hlh) hh hseg
      obtain ⟨plen, pperm, pframe, plo, phi, ppivot, pleft, pright, pseg⟩ := ps
      set p := partition key true a0 low high with hp
      set pv := key (getI a0 high) with hpv
      -- left recursive call on `[low, p.2 - 1]`
      have q1 := ih p.1 low (p.2 - 1) (fun x => P x ∧ pv ≤ key x)
        (by omega) (by omega)
        (by
          intro k hk1 hk2
          by_cases hkp : k < p.2
          · exact ⟨pseg k hk1 (by omega), pleft k hk1 hkp⟩
          · have hkeq : k = p.2 := by omega
            refine ⟨pseg k hk1 (by omega), ?_⟩
            rw [hkeq, ppivot])
      obtain ⟨q1len, q1perm, q1frame, q1seg, q1sorted⟩ := q1
      set r1 := quicksortHelper key true fuel p.1 low (p.2 - 1) with hr1
      -- right recursive call on `[p.2 + 1, high]`
      have q2 := ih r1 (p.2 + 1) high (fun x => P x ∧ key x < pv)
        (by omega) (by omega)
        (by
          intro k hk1 hk2
          rw [q1frame k (by omega)]
          exact ⟨pseg k (by omega) hk2, pright k (by omega) hk2⟩)
      obtain ⟨q2len, q2perm, q2frame, q2seg, q2sorted⟩ := q2
      set r2 := quicksortHelper key true fuel r1 (p.2 + 1) high with hr2
      have hr2len : r2.length = a0.length := by rw [q2len, q1len, plen]
      -- elements at or left of the pivot index are ≥ pv
      have hval : ∀ k, low ≤ k → k ≤ p.2 → pv ≤ key (getI r2 k) := by
        intro k hk1 hk2
        rw [q2frame k (by omega)]
        by_cases hk3 : k ≤ p.2 - 1
        · exact (q1seg k hk1 hk3).2
        · have hkeq : k = p.2 := by omega
          have hp1 : 1 ≤ p.2 := by omega
          rw [hkeq, q1frame p.2 (by omega), ppivot]
      -- the pivot value sits at index p.2
      have hpiv2 : 1 ≤ p.2 → key (getI r2 p.2) = pv := by
        intro hp1
        rw [q2frame p.2 (by omega), q1frame p.2 (by omega), ppivot]
      -- elements right of the pivot index are < pv
      have hright : ∀ k, p.2 + 1 ≤ k → k ≤ high → key (getI r2 k) < pv := by
        intro k hk1 hk2
        exact (q2seg k hk1 hk2).2
      refine ⟨hr2len, ?_, ?_, ?_, ?_⟩
      · exact (q2perm.trans q1perm).trans pperm
      · intro k hk
        rw [q2frame k (by omega), q1frame k (by omega), pframe k (by omega)]
      · intro k hk1 hk2
        by_cases hkr : p.2 + 1 ≤ k
        · exact (q2seg k hkr hk2).1
        · rw [q2frame k (by omega)]
          by_cases hk3 : k ≤ p.2 - 1
          · exact (q1seg k hk1 hk3).1
          · have hkeq : k = p.2 := by omega
            rw [hkeq, q1frame p.2 (by omega)]
            exact pseg p.2 (by omega) (by omega)
      · intro k1 k2 h1 h12 h2 hlen2
        by_cases hc1 : p.2 + 1 ≤ k1
        · exact q2sorted k1 k2 hc1 h12 h2 hlen2
        · have hk1p : k1 ≤ p.2 := by omega
          by_cases hc2 : p.2 + 1 ≤ k2
          · exact le_trans (le_of_lt (hright k2 hc2 h2)) (hval k1 h1 hk1p)
          · have hk2p : k2 ≤ p.2 := by omega
            by_cases hc3 : k2 ≤ p.2 - 1
            · -- both in the left segment: transport the left sortedness
              have e1 : getI r2 k1 = getI r1 k1 := q2frame k1 (by omega)
              have e2 : getI r2 k2 = getI r1 k2 := q2frame k2 (by omega)
              rw [e1, e2]
              exact q1sorted k1 k2 h1 h12 hc3 (by omega)
            · have hk2eq : k2 = p.2 := by omega
              have hp1 : 1 ≤ p.2 := by omega
              by_cases h12eq : k1 = k2
              · rw [h12eq]
              · have hk1lt : k1 < p.2 := by omega
                rw [hk2eq, hpiv2 hp1]
                exact hval k1 h1 hk1p
    · have hunf : quicksortHelper key true (fuel + 1) a0 low high = a0 := by
        simp only [quicksortHelper]
        rw [if_neg hlh]
      rw [hunf]
      exact quicksortHelper_trivial key P a0 low high (by omega) hseg

theorem quicksort_perm (key : α → Int) (l : List α) :
    (quicksort key true l).Perm l := by
  rw [quicksort]
  by_cases h : l.length ≤ 1
  · rw [if_pos h]
  · rw [if_neg h]
    have q := quicksortHelper_spec key l.length l 0 (l.length - 1) (fun _ => True)
      (by omega) (by omega) (fun _ _ _ => trivial)
    exact q.perm

theorem quicksort_sorted (key : α → Int) (l : List α) :
    (quicksort key true l).Pairwise (fun x y => key y ≤ key x) := by
  rw [quicksort]
  by_cases h : l.length ≤ 1
  · rw [if_pos h]
    match l with
    | [] => simp
    | [a] => simp
    | a :: b :: t => simp at h
  · rw [if_neg h]
    have q := quicksortHelper_spec key l.length l 0 (l.length - 1) (fun _ => True)
      (by omega) (by omega) (fun _ _ _ => trivial)
    rw [List.pairwise_iff_getElem]
    intro i j hi hj hij
    have hlen : (quicksortHelper key true l.length l 0 (l.length - 1)).length = l.length :=
      q.len
    have hs := q.sorted i j (by omega) (by omega) (by omega) (by omega)
    rw [getI_eq_getElem _ i (by omega), getI_eq_getElem _ j (by omega)] at hs
    exact hs

end SortingAlgorithm

/-! ### Data model (apps/elections/models.py, apps/candidates/models.py, apps/voting/models.py)

Rows are structures; foreign keys are stored ids, dereferenced by `List.find?`
on the id (the functional reading of a Django FK access).  Display-only
columns that no claim mentions (descriptions, photos, user agents, party
colours, candidate names) are omitted. -/

/-- `elections.models.SchoolElection` (scheduling-relevant columns). -/
structure SchoolElection where
  id : Nat
  title : String
  start_date : Int
  end_date : Int
  is_active : Bool
deriving Repr, DecidableEq, Inhabited

/-- `SchoolElection.is_active_now`: `self.is_active and (self.start_date <= now <= self.end_date)`. -/
def SchoolElection.is_active_now (e : SchoolElection) (now : Int) : Bool :=
  e.is_active && decide (e.start_date ≤ now) && decide (now ≤ e.end_date)

/-- `SchoolElection.is_finished`: `now > self.end_date`. -/
def SchoolElection.is_finished (e : SchoolElection) (now : Int) : Bool :=
  decide (e.end_date < now)

/-- `elections.models.SchoolPosition`. -/
structure SchoolPosition where
  id : Nat
  name : String
  display_order : Nat
deriving Repr, DecidableEq, Inhabited

/-- `elections.models.ElectionPosition` (election ↔ position through table). -/
structure ElectionPosition where
  election : Nat
  position : Nat
  order : Nat
  is_enabled : Bool
deriving Repr, DecidableEq, Inhabited

/-- `candidates.models.Candidate` (approval/vote-relevant columns). -/
structure Candidate where
  id : Nat
  election : Nat
  position : Nat
  is_active : Bool
deriving Repr, DecidableEq, Inhabited

/-- `voting.models.VoteReceipt`. -/
structure VoteReceipt where
  id : Nat
  user : Nat
  election : Nat
  receipt_code : String
  receipt_hash : String
  created_at : Int
deriving Repr, DecidableEq, Inhabited

/-- `voting.models.Ballot`. -/
structure Ballot where
  id : Nat
  user : Nat
  election : Nat
  receipt : Nat
  submitted_at : Int
deriving Repr, DecidableEq, Inhabited

/-- `voting.models.VoteChoice`. -/
structure VoteChoice where
  id : Nat
  ballot : Nat
  position : Nat
  candidate : Nat
  anonymized : Bool
deriving Repr, DecidableEq, Inhabited

/-- `voting.models.AnonVote`: no voter or ballot reference, by construction. -/
structure AnonVote where
  election : Nat
  position : Nat
  candidate : Nat
  vote_hash : String
  created_at : Int
deriving Repr, DecidableEq, Inhabited

/-- `common.models.ActivityLog` (the columns the vote path writes). -/
structure ActivityRow where
  user : Nat
  action : String
  resource_id : Nat
deriving Repr, DecidableEq, Inhabited

/-- The durable store: one list per table, in insertion order.  Fresh primary
keys are the current table length (no row is ever deleted in the modelled
flows, so these are exactly the auto-increment ids 0,1,2,…). -/
structure DB where
  elections : List SchoolElection
  positions : List SchoolPosition
  election_positions : List ElectionPosition
  candidates : List Candidate
  receipts : List VoteReceipt
  ballots : List Ballot
  choices : List VoteChoice
  anon_votes : List AnonVote
  activity_log : List ActivityRow
deriving Repr, DecidableEq, Inhabited

/-! ### Receipt primitives (voting/models.py `VoteReceipt`) -/

/-- `VoteReceipt.generate_receipt_code`: `uuid.uuid4().hex + uuid.uuid4().hex[:8]`.
The two uuid hex strings are oracle inputs (32 hex characters each at runtime). -/
def generate_receipt_code (uuid1_hex uuid2_hex : String) : String :=
  uuid1_hex ++ uuid2_hex.take 8

/-- `VoteReceipt.hash_receipt`: `hashlib.sha256(receipt_code.encode()).hexdigest()`,
with the digest function `H` as a parameter. -/
def hash_receipt (H : String → String) (receipt_code : String) : String :=
  H receipt_code

/-- `VoteReceipt.verify_receipt`: recompute the digest of the presented code and
compare with the stored hash. -/
def VoteReceipt.verify_receipt (H : String → String) (r : VoteReceipt)
    (receipt_code : String) : Bool :=
  decide (r.receipt_hash = hash_receipt H receipt_code)

/-- `VoteReceipt.get_masked_receipt`: first 8 and last 8 characters around an
ellipsis when the code is longer than 16 characters, the full code otherwise. -/
def VoteReceipt.get_masked_receipt (r : VoteReceipt) : String :=
  if 16 < r.receipt_code.length then
    r.receipt_code.take 8 ++ "..." ++ r.receipt_code.drop (r.receipt_code.length - 8)
  else r.receipt_code

/-! ### Anonymization (voting/models.py `VoteChoice.anonymize`, `AnonVote.save`) -/

/-- `VoteChoice.anonymize`: if not yet anonymized, create an `AnonVote` carrying
`(self.ballot.election, self.position, self.candidate)` (the FK dereference
`self.ballot` is a lookup of the ballot row by id), whose `save` fills
`vote_hash = sha256(f"{election.id}:{position.id}:{candidate.id}:{now}")`, and
flag the choice row `anonymized = True`; otherwise do nothing. -/
def VoteChoice.anonymize (H : String → String) (now : Int) (db : DB)
    (c : VoteChoice) : DB :=
  if c.anonymized = false then
    match db.ballots.find? (fun b => decide (b.id = c.ballot)) with
    | none => db
    | some b =>
      let av : AnonVote :=
        { election := b.election, position := c.position, candidate := c.candidate,
          vote_hash := H (toString b.election ++ ":" ++ toString c.position ++ ":"
            ++ toString c.candidate ++ ":" ++ toString now),
          created_at := now }
      { db with
        anon_votes := db.anon_votes ++ [av],
        choices := db.choices.map (fun x =>
          if x.id = c.id then { x with anonymized := true } else x) }
  else db

/-! ### Receipt verification endpoint (voting/views.py `VoteReceiptViewSet.verify`,
voting/serializers.py `VoteReceiptVerifySerializer`) -/

/-- Observable outcome of the verify endpoint: a serializer 400 for a
malformed code (shorter than 32 or longer than the `max_length=64` field
bound), a `{'valid': True, 'election': …, 'voted_at': …}` response, or the
404 `{'valid': False}` response. -/
inductive VerifyResult : Type
  | formatError : VerifyResult
  | valid (election : String) (voted_at : Int) : VerifyResult
  | invalid : VerifyResult
deriving Repr, DecidableEq

/-- `VoteReceiptViewSet.verify`: validate the code format, look the receipt up
by `receipt_code`, recompute and compare the hash, and answer with the
election title and issue time on success. -/
def verifyReceipt (H : String → String) (db : DB) (receipt_code : String) :
    VerifyResult :=
  if receipt_code.length < 32 || 64 < receipt_code.length then .formatError
  else
    match db.receipts.find? (fun r => decide (r.receipt_code = receipt_code)) with
    | none => .invalid
    | some receipt =>
      if receipt.verify_receipt H receipt_code then
        .valid
          (match db.elections.find? (fun e => decide (e.id = receipt.election)) with
            | some e => e.title
            | none => "Unknown Election")
          receipt.created_at
      else .invalid

/-! ### Ballot submission (voting/views.py `BallotViewSet.submit`,
voting/serializers.py `BallotSubmissionSerializer`)

The view first enforces the per-user throttle, then runs the serializer
validation (election exists, `is_active_now`, no existing ballot), and only
then opens `transaction.atomic()` and performs the writes: receipt, ballot,
then per vote a position lookup, a candidate lookup scoped to
`(election, position, is_active=True)`, a `VoteChoice` insert and an immediate
`anonymize()`, finally the activity-log write.  Any exception raised inside the
atomic block (`DoesNotExist` → 400, `ValidationError` → 400, `IntegrityError`
→ 500) rolls the transaction back, so the observable database is the
pre-transaction one.

The throttle decision is an oracle `throttled : Bool` (DRF rate state lives
outside the database); the fresh receipt code is the oracle `code`; the
execution order of checks and writes is recorded in an event trace. -/

/-- Checks and persistence steps of one submission attempt, in execution order. -/
inductive Ev : Type
  | checkThrottle : Ev
  | checkElectionActive : Ev
  | checkAlreadyVoted : Ev
  | writeReceipt : Ev
  | writeBallot : Ev
  | checkChoice (position_id candidate_id : Nat) : Ev
  | writeChoice (position_id candidate_id : Nat) : Ev
  | writeAnonVote (position_id candidate_id : Nat) : Ev
  | writeActivityLog : Ev
deriving Repr, DecidableEq

/-- Persistence steps, as opposed to pure checks. -/
def Ev.isWrite : Ev → Bool
  | .writeReceipt => true
  | .writeBallot => true
  | .writeChoice _ _ => true
  | .writeAnonVote _ _ => true
  | .writeActivityLog => true
  | _ => false

/-- Failure kinds a submission attempt can surface. -/
inductive SubmitError : Type
  | throttled : SubmitError
  | electionNotFound : SubmitError
  | electionNotActive : SubmitError
  | alreadyVoted : SubmitError
  | invalidChoice (position_id candidate_id : Nat) : SubmitError
  | integrityError : SubmitError
deriving Repr, DecidableEq

/-- The `for vote_data in votes` loop inside the atomic block: look up the
position by id and the candidate by `(id, election, position, is_active=True)`
(`DoesNotExist` → invalid choice), insert the `VoteChoice` (the
`unique_together ['ballot', 'position']` constraint rejects a duplicate
position within one submission), and anonymize it immediately. -/
def processVotes (H : String → String) (now : Int) (election : SchoolElection)
    (ballot_id : Nat) : DB → List (Nat × Nat) → Except SubmitError DB × List Ev
  | db, [] => (.ok db, [])
  | db, (position_id, candidate_id) :: rest =>
    match db.positions.find? (fun p => decide (p.id = position_id)),
        db.candidates.find? (fun c => decide (c.id = candidate_id)
          && decide (c.election = election.id) && decide (c.position = position_id)
          && c.is_active) with
    | some _, some _ =>
      if db.choices.any (fun ch => decide (ch.ballot = ballot_id)
          && decide (ch.position = position_id)) then
        (.error .integrityError, [.checkChoice position_id candidate_id])
      else
        let choice : VoteChoice :=
          { id := db.choices.length, ballot := ballot_id, position := position_id,
            candidate := candidate_id, anonymized := false }
        let db1 : DB := { db with choices := db.choices ++ [choice] }
        let db2 := VoteChoice.anonymize H now db1 choice
        let r := processVotes H now election ballot_id db2 rest
        (r.1, .checkChoice position_id candidate_id
          :: .writeChoice position_id candidate_id
          :: .writeAnonVote position_id candidate_id :: r.2)
    | _, _ => (.error (.invalidChoice position_id candidate_id),
        [.checkChoice position_id candidate_id])

/-- The `VoteReceipt` row created by `VoteReceipt.objects.create(...)` followed
by its `save()` (code generation is the oracle `code`, hash filled in). -/
def newReceipt (H : String → String) (db : DB) (now : Int) (user : Nat)
    (election_id : Nat) (code : String) : VoteReceipt :=
  { id := db.receipts.length, user := user, election := election_id,
    receipt_code := code, receipt_hash := hash_receipt H code, created_at := now }

/-- The `Ballot` row created by `Ballot.objects.create(...)`, linked one-to-one
to the receipt just created. -/
def newBallot (db : DB) (now : Int) (user : Nat) (election_id : Nat) : Ballot :=
  { id := db.ballots.length, user := user, election := election_id,
    receipt := db.receipts.length, submitted_at := now }

/-- The database after the receipt and ballot inserts of the transaction.
(The receipt insert does not touch the ballot table, so the ballot-uniqueness
constraint check between the two inserts reads `db.ballots`.) -/
def txnStart (H : String → String) (db : DB) (now : Int) (user : Nat)
    (election_id : Nat) (code : String) : DB :=
  { db with
    receipts := db.receipts ++ [newReceipt H db now user election_id code],
    ballots := db.ballots ++ [newBallot db now user election_id] }

/-- The body of `transaction.atomic()`: create the receipt (unique code and
unique `(user, election)`), create the ballot (unique `(user, election)`),
run the vote loop, then write the activity log.  Returns the committed
database and the plaintext receipt code, or the first error raised. -/
def submitTxn (H : String → String) (db : DB) (now : Int) (user : Nat)
    (election : SchoolElection) (votes : List (Nat × Nat)) (code : String) :
    Except SubmitError (DB × String) × List Ev :=
  if db.receipts.any (fun r => decide (r.receipt_code = code)
      || (decide (r.user = user) && decide (r.election = election.id))) then
    (.error .integrityError, [])
  else if db.ballots.any (fun b => decide (b.user = user)
      && decide (b.election = election.id)) then
    (.error .integrityError, [.writeReceipt])
  else
    match processVotes H now election db.ballots.length
        (txnStart H db now user election.id code) votes with
    | (.ok db3, tr) =>
      (.ok ({ db3 with activity_log := db3.activity_log
          ++ [{ user := user, action := "vote", resource_id := election.id }] }, code),
        .writeReceipt :: .writeBallot :: (tr ++ [.writeActivityLog]))
    | (.error e, tr) => (.error e, .writeReceipt :: .writeBallot :: tr)

/-- Observable outcome of one submission attempt: the database visible
afterwards (rolled back to the input database on any error), the surfaced
error if any, the plaintext receipt code on success, and the execution trace. -/
structure SubmitOutcome where
  db : DB
  error : Option SubmitError
  receipt_code : Option String
  trace : List Ev
deriving Repr, DecidableEq

/-- `BallotViewSet.submit`: throttle gate, serializer validation, then the
atomic transaction.  On any error inside the transaction the rollback makes
the pre-transaction database the observable one. -/
def submit (H : String → String) (db : DB) (now : Int) (throttled : Bool)
    (user : Nat) (election_id : Nat) (votes : List (Nat × Nat)) (code : String) :
    SubmitOutcome :=
  if throttled then
    { db := db, error := some .throttled, receipt_code := none,
      trace := [.checkThrottle] }
  else
    match db.elections.find? (fun e => decide (e.id = election_id)) with
    | none =>
      { db := db, error := some .electionNotFound, receipt_code := none,
        trace := [.checkThrottle] }
    | some election =>
      if election.is_active_now now = false then
        { db := db, error := some .electionNotActive, receipt_code := none,
          trace := [.checkThrottle, .checkElectionActive] }
      else if db.ballots.any (fun b => decide (b.user = user)
          && decide (b.election = election.id)) then
        { db := db, error := some .alreadyVoted, receipt_code := none,
          trace := [.checkThrottle, .checkElectionActive, .checkAlreadyVoted] }
      else
        match submitTxn H db now user election votes code with
        | (.ok (db', rcode), tr) =>
          { db := db', error := none, receipt_code := some rcode,
            trace := .checkThrottle :: .checkElectionActive :: .checkAlreadyVoted :: tr }
        | (.error e, tr) =>
          { db := db, error := some e, receipt_code := none,
            trace := .checkThrottle :: .checkElectionActive :: .checkAlreadyVoted :: tr }

/-! ### Results aggregation (voting/views.py `ResultsViewSet.election_results`,
voting/services.py `VotingDataService.calculate_turnout_percentage`)

Python floats in the percentage computation are modelled as exact rationals;
`round(x, 2)` is rounding to the nearest multiple of 1/100 (no claim under
study depends on the float tie-breaking direction).  The presentation-only
`order_by('order')` of the position blocks, and the display columns
(candidate name, party), are not modelled; no claim depends on them.  The
early return for an election without positions produces the same response as
the general path with an empty `positions` list and is folded into it. -/

/-- Python `round(q, 2)` on the exact rational value. -/
def round2 (q : ℚ) : ℚ := (round (q * 100) : ℚ) / 100

/-- One candidate entry of the results payload. -/
structure CandidateResult where
  candidate_id : Nat
  vote_count : Nat
  percentage : ℚ
  is_winner : Bool
  rank : Option Nat
deriving Repr, DecidableEq, Inhabited

/-- One position block of the results payload. -/
structure PositionResult where
  position_id : Nat
  position_name : String
  total_votes : Nat
  candidates : List CandidateResult
deriving Repr, DecidableEq, Inhabited

/-- The results payload. -/
structure ElectionResultsResponse where
  election_id : Nat
  election_title : String
  election_ended : Bool
  is_active : Bool
  total_voters : Nat
  total_ballots : Nat
  positions : List PositionResult
deriving Repr, DecidableEq, Inhabited

/-- `AnonVote` rows for `(election, position)` grouped by candidate:
`vote_map.get(candidate_id, 0)`. -/
def positionVoteCount (db : DB) (election_id position_id candidate_id : Nat) : Nat :=
  (db.anon_votes.filter (fun v => decide (v.election = election_id)
    && decide (v.position = position_id)
    && decide (v.candidate = candidate_id))).length

/-- `sum(vote_map.values())`: every `AnonVote` row carries exactly one
candidate, so the sum of the per-candidate group counts is the row count for
`(election, position)`. -/
def positionTotalVotes (db : DB) (election_id position_id : Nat) : Nat :=
  (db.anon_votes.filter (fun v => decide (v.election = election_id)
    && decide (v.position = position_id))).length

/-- The `candidates_data` list before sorting: every candidate of the
position (zero votes included), with percentage guarded against a zero
denominator, `is_winner = False` and `rank = None` placeholders. -/
def buildCandidatesData (db : DB) (election_id position_id : Nat) :
    List CandidateResult :=
  (db.candidates.filter (fun c => decide (c.election = election_id)
    && decide (c.position = position_id))).map (fun c =>
    let vote_count := positionVoteCount db election_id position_id c.id
    let position_total_votes := positionTotalVotes db election_id position_id
    { candidate_id := c.id
      vote_count := vote_count
      percentage :=
        if 0 < position_total_votes then
          round2 ((vote_count : ℚ) / (position_total_votes : ℚ) * 100)
        else 0
      is_winner := false
      rank := none })

/-- `for idx, candidate_data in enumerate(candidates_data, start=1)`: assign
`rank = idx` and `is_winner = election_ended and idx == 1 and vote_count > 0`. -/
def assignRanks (election_ended : Bool) (l : List CandidateResult) :
    List CandidateResult :=
  l.enum.map (fun ic =>
    { ic.2 with
      rank := some (ic.1 + 1)
      is_winner := election_ended && decide (ic.1 + 1 = 1)
        && decide (0 < ic.2.vote_count) })

/-- `ResultsViewSet.election_results`: 404 (`none`) for an unknown election,
otherwise the per-position tallies with candidates quicksorted descending by
vote count and ranks/winner flags assigned. -/
def electionResults (db : DB) (now : Int) (election_id : Nat) :
    Option ElectionResultsResponse :=
  match db.elections.find? (fun e => decide (e.id = election_id)) with
  | none => none
  | some election =>
    let election_ended := election.is_finished now
    let total_voters :=
      (db.receipts.filter (fun r => decide (r.election = election.id))).length
    let total_ballots :=
      (db.ballots.filter (fun b => decide (b.election = election.id))).length
    let positions_data :=
      (db.election_positions.filter (fun ep => decide (ep.election = election.id))).filterMap
        (fun ep =>
          match db.positions.find? (fun p => decide (p.id = ep.position)) with
          | none => none
          | some position =>
            let candidates_data := buildCandidatesData db election.id position.id
            let sorted := SortingAlgorithm.quicksort
              (fun c => (c.vote_count : Int)) true candidates_data
            some
              { position_id := position.id
                position_name := position.name
                total_votes := positionTotalVotes db election.id position.id
                candidates := assignRanks election_ended sorted })
    some
      { election_id := election.id
        election_title := election.title
        election_ended := election_ended
        is_active := election.is_active_now now
        total_voters := total_voters
        total_ballots := total_ballots
        positions := positions_data }

/-- `VotingDataService.calculate_turnout_percentage`: `0.0` when no voter is
registered, otherwise `round(voters / registered * 100, 2)`. -/
def calculate_turnout_percentage (voters registered : Nat) : ℚ :=
  if registered = 0 then 0
  else round2 ((voters : ℚ) / (registered : ℚ) * 100)

/-! ### Structural lemmas about the submission flow -/

theorem anonymize_preserves (H : String → String) (now : Int) (db : DB)
    (c : VoteChoice) :
    (VoteChoice.anonymize H now db c).elections = db.elections ∧
    (VoteChoice.anonymize H now db c).positions = db.positions ∧
    (VoteChoice.anonymize H now db c).election_positions = db.election_positions ∧
    (VoteChoice.anonymize H now db c).candidates = db.candidates ∧
    (VoteChoice.anonymize H now db c).receipts = db.receipts ∧
    (VoteChoice.anonymize H now db c).ballots = db.ballots ∧
    (VoteChoice.anonymize H now db c).activity_log = db.activity_log := by
  unfold VoteChoice.anonymize
  split
  · split <;> simp
  · simp

theorem processVotes_ok_components (H : String → String) (now : Int)
    (election : SchoolElection) (ballot_id : Nat) :
    ∀ (votes : List (Nat × Nat)) (db db3 : DB) (tr : List Ev),
      processVotes H now election ballot_id db votes = (.ok db3, tr) →
      db3.elections = db.elections ∧ db3.positions = db.positions ∧
      db3.election_positions = db.election_positions ∧
      db3.candidates = db.candidates ∧ db3.receipts = db.receipts ∧
      db3.ballots = db.ballots ∧ db3.activity_log = db.activity_log := by
  intro votes
  induction votes with
  | nil =>
    intro db db3 tr h
    simp only [processVotes, Prod.mk.injEq] at h
    obtain ⟨h1, _⟩ := h
    obtain rfl : db = db3 := by
      cases h1
      rfl
    exact ⟨rfl, rfl, rfl, rfl, rfl, rfl, rfl⟩
  | cons v rest ih =>
    intro db db3 tr h
    rcases v with ⟨pid, cid⟩
    simp only [processVotes] at h
    cases hp : db.positions.find? (fun p => decide (p.id = pid)) with
    | none =>
      rw [hp] at h
      simp at h
    | some pos =>
      rw [hp] at h
      cases hc : db.candidates.find? (fun c => decide (c.id = cid)
          && decide (c.election = election.id) && decide (c.position = pid)
          && c.is_active) with
      | none =>
        rw [hc] at h
        simp at h
      | some cand =>
        rw [hc] at h
        by_cases hdup : db.choices.any (fun ch => decide (ch.ballot = ballot_id)
            && decide (ch.position = pid)) = true
        · rw [if_pos hdup] at h
          simp at h
        · rw [if_neg hdup] at h
          simp only [Prod.mk.injEq] at h
          obtain ⟨h1, _⟩ := h
          set choice : VoteChoice :=
            { id := db.choices.length, ballot := ballot_id, position := pid,
              candidate := cid, anonymized := false } with hchoice
          set db1 : DB := { db with choices := db.choices ++ [choice] } with hdb1
          set db2 := VoteChoice.anonymize H now db1 choice with hdb2
          rcases hr : processVotes H now election ballot_id db2 rest with ⟨res, tr'⟩
          rw [hr] at h1
          cases res with
          | error e => simp at h1
          | ok db3' =>
            have h1' : db3' = db3 := by simpa using h1
            subst h1'
            have hrest := ih db2 db3' tr' hr
            have hanon := anonymize_preserves H now db1 choice
            have hdb1c : db1.elections = db.elections ∧ db1.positions = db.positions ∧
                db1.election_positions = db.election_positions ∧
                db1.candidates = db.candidates ∧ db1.receipts = db.receipts ∧
                db1.ballots = db.ballots ∧ db1.activity_log = db.activity_log := by
              rw [hdb1]
              exact ⟨rfl, rfl, rfl, rfl, rfl, rfl, rfl⟩
            refine ⟨?_, ?_, ?_, ?_, ?_, ?_, ?_⟩
            · rw [hrest.1, hanon.1, hdb1c.1]
            · rw [hrest.2.1, hanon.2.1, hdb1c.2.1]
            · rw [hrest.2.2.1, hanon.2.2.1, hdb1c.2.2.1]
            · rw [hrest.2.2.2.1, hanon.2.2.2.1, hdb1c.2.2.2.1]
            · rw [hrest.2.2.2.2.1, hanon.2.2.2.2.1, hdb1c.2.2.2.2.1]
            · rw [hrest.2.2.2.2.2.1, hanon.2.2.2.2.2.1, hdb1c.2.2.2.2.2.1]
            · rw [hrest.2.2.2.2.2.2, hanon.2.2.2.2.2.2, hdb1c.2.2.2.2.2.2]

/-- Every failing submission leaves the observable database unchanged (the
serializer failures never reach the transaction; the transaction failures are
rolled back by `transaction.atomic`). -/
theorem submit_error_db_eq (H : String → String) (db : DB) (now : Int)
    (throttled : Bool) (user election_id : Nat) (votes : List (Nat × Nat))
    (code : String) (e : SubmitError)
    (h : (submit H db now throttled user election_id votes code).error = some e) :
    (submit H db now throttled user election_id votes code).db = db := by
  by_cases ht : throttled
  · simp [submit, ht]
  · cases hfind : db.elections.find? (fun e => decide (e.id = election_id)) with
    | none => simp [submit, ht, hfind]
    | some el =>
      by_cases hact : el.is_active_now now = false
      · simp [submit, ht, hfind, hact]
      · by_cases hvoted : db.ballots.any (fun b => decide (b.user = user)
            && decide (b.election = el.id)) = true
        · simp [submit, ht, hfind, hact, hvoted]
        · rcases htxn : submitTxn H db now user el votes code with ⟨res, tr⟩
          cases res with
          | ok pair =>
            rcases pair with ⟨db', rcode⟩
            rw [submit] at h
            simp only [if_neg ht, hfind, if_neg hact, Bool.not_eq_true] at h
            rw [if_neg (by simp [hvoted]), htxn] at h
            simp at h
          | error e' =>
            rw [submit]
            simp only [if_neg ht, hfind, if_neg hact, Bool.not_eq_true]
            rw [if_neg (by simp [hvoted]), htxn]

/-- Auto-increment well-formedness of the `VoteChoice` table: row `i` carries
primary key `i`.  This holds of every database reachable by the modelled
flows, which only ever append with `id := length`. -/
def ChoicesCanonical (db : DB) : Prop :=
  ∀ (i : Nat) (h : i < db.choices.length), (db.choices[i]).id = i

/-- Auto-increment well-formedness of the `Ballot` table. -/
def BallotsCanonical (db : DB) : Prop :=
  ∀ (i : Nat) (h : i < db.ballots.length), (db.ballots[i]).id = i

/-- Referential integrity of `VoteChoice.ballot` under canonical ballot ids. -/
def ChoicesBallotRefsValid (db : DB) : Prop :=
  ∀ ch ∈ db.choices, ch.ballot < db.ballots.length

theorem find?_append_new {β : Type} (l : List β) (p : β → Bool) (b : β)
    (hl : ∀ x ∈ l, p x = false) (hb : p b = true) :
    (l ++ [b]).find? p = some b := by
  rw [List.find?_append]
  have hnone : l.find? p = none := by
    rw [List.find?_eq_none]
    intro x hx
    simp [hl x hx]
  rw [hnone]
  simp [List.find?_cons, hb]

/-- Anonymizing a not-yet-anonymized choice whose ballot FK resolves: exactly
one `AnonVote` is appended, carrying the ballot's election and the choice's
position and candidate, and the choice row is flagged. -/
theorem anonymize_fresh (H : String → String) (now : Int) (db : DB)
    (c : VoteChoice) (bal : Ballot) (hanon : c.anonymized = false)
    (hfind : db.ballots.find? (fun b => decide (b.id = c.ballot)) = some bal) :
    (VoteChoice.anonymize H now db c).anon_votes = db.anon_votes ++
      [{ election := bal.election, position := c.position, candidate := c.candidate,
         vote_hash := H (toString bal.election ++ ":" ++ toString c.position ++ ":"
           ++ toString c.candidate ++ ":" ++ toString now),
         created_at := now }] ∧
    (VoteChoice.anonymize H now db c).choices = db.choices.map (fun x =>
      if x.id = c.id then { x with anonymized := true } else x) := by
  unfold VoteChoice.anonymize
  rw [if_pos hanon, hfind]
  exact ⟨rfl, rfl⟩

/-- Anonymizing an already-anonymized choice is a no-op. -/
theorem anonymize_noop (H : String → String) (now : Int) (db : DB)
    (c : VoteChoice) (hanon : c.anonymized = true) :
    VoteChoice.anonymize H now db c = db := by
  unfold VoteChoice.anonymize
  rw [if_neg (by simp [hanon])]

theorem flag_map_fresh (old : List VoteChoice) (c : VoteChoice)
    (hfresh : ∀ x ∈ old, x.id ≠ c.id) :
    (old ++ [c]).map (fun x => if x.id = c.id then { x with anonymized := true } else x)
      = old ++ [{ c with anonymized := true }] := by
  rw [List.map_append]
  congr 1
  · have : old.map (fun x => if x.id = c.id then { x with anonymized := true } else x)
        = old.map id := by
      apply List.map_congr_left
      intro x hx
      simp [hfresh x hx]
    rw [this, List.map_id]
  · simp

theorem canonical_append (l : List VoteChoice) (c : VoteChoice)
    (hl : ∀ (i : Nat) (h : i < l.length), (l[i]).id = i)
    (hc : c.id = l.length) :
    ∀ (i : Nat) (h : i < (l ++ [c]).length), ((l ++ [c])[i]).id = i := by
  intro i h
  rcases Nat.lt_or_ge i l.length with hlt | hge
  · rw [List.getElem_append i h, dif_pos hlt]
    exact hl i hlt
  · have hieq : i = l.length := by
      simp at h
      omega
    rw [List.getElem_append i h, dif_neg (by omega)]
    rw [List.getElem_singleton]
    omega

theorem choices_canonical_mem_ne (db : DB) (hcan : ChoicesCanonical db)
    (x : VoteChoice) (hx : x ∈ db.choices) : x.id ≠ db.choices.length := by
  rcases List.mem_iff_getElem.mp hx with ⟨i, hi, hgi⟩
  have := hcan i hi
  rw [hgi] at this
  omega

/-- The committed result of the vote loop, under well-formed ids: one
`AnonVote` per submitted `(position, candidate)` pair, all new `VoteChoice`
rows flagged anonymized, everything appended after the existing rows. -/
theorem processVotes_anon_spec (H : String → String) (now : Int)
    (election : SchoolElection) (ballot_id : Nat) (bal : Ballot)
    (hbal_el : bal.election = election.id) :
    ∀ (votes : List (Nat × Nat)) (db db3 : DB) (tr : List Ev),
      processVotes H now election ballot_id db votes = (.ok db3, tr) →
      ChoicesCanonical db →
      db.ballots.find? (fun b => decide (b.id = ballot_id)) = some bal →
      db3.anon_votes = db.anon_votes ++ votes.map (fun v =>
        { election := election.id, position := v.1, candidate := v.2,
          vote_hash := H (toString election.id ++ ":" ++ toString v.1 ++ ":"
            ++ toString v.2 ++ ":" ++ toString now),
          created_at := now }) ∧
      (∃ newChoices, db3.choices = db.choices ++ newChoices ∧
        newChoices.length = votes.length ∧
        ∀ x ∈ newChoices, x.ballot = ballot_id ∧ x.anonymized = true) ∧
      ChoicesCanonical db3 := by
  intro votes
  induction votes with
  | nil =>
    intro db db3 tr h hcan hfind
    simp only [processVotes, Prod.mk.injEq] at h
    obtain ⟨h1, _⟩ := h
    obtain rfl : db = db3 := by
      cases h1
      rfl
    exact ⟨by simp, ⟨[], by simp, rfl, by simp⟩, hcan⟩
  | cons v rest ih =>
    intro db db3 tr h hcan hfind
    rcases v with ⟨pid, cid⟩
    simp only [processVotes] at h
    cases hp : db.positions.find? (fun p => decide (p.id = pid)) with
    | none => rw [hp] at h; simp at h
    | some pos =>
      rw [hp] at h
      cases hc : db.candidates.find? (fun c => decide (c.id = cid)
          && decide (c.election = election.id) && decide (c.position = pid)
          && c.is_active) with
      | none => rw [hc] at h; simp at h
      | some cand =>
        rw [hc] at h
        by_cases hdup : db.choices.any (fun ch => decide (ch.ballot = ballot_id)
            && decide (ch.position = pid)) = true
        · rw [if_pos hdup] at h; simp at h
        · rw [if_neg hdup] at h
          simp only [Prod.mk.injEq] at h
          obtain ⟨h1, _⟩ := h
          set choice : VoteChoice :=
            { id := db.choices.length, ballot := ballot_id, position := pid,
              candidate := cid, anonymized := false } with hchoice
          set db1 : DB := { db with choices := db.choices ++ [choice] } with hdb1
          set db2 := VoteChoice.anonymize H now db1 choice with hdb2
          rcases hr : processVotes H now election ballot_id db2 rest with ⟨res, tr'⟩
          rw [hr] at h1
          cases res with
          | error e => simp at h1
          | ok db3' =>
            have h1' : db3' = db3 := by simpa using h1
            subst h1'
            -- shape of db2
            have hfind1 : db1.ballots.find? (fun b => decide (b.id = choice.ballot))
                = some bal := by
              rw [hdb1, hchoice]
              exact hfind
            have hfr := anonymize_fresh H now db1 choice bal (by rw [hchoice]) hfind1
            have hflag : db1.choices.map (fun x =>
                if x.id = choice.id then { x with anonymized := true } else x)
                = db.choices ++ [{ choice with anonymized := true }] := by
              rw [hdb1]
              exact flag_map_fresh db.choices choice
                (fun x hx => by
                  rw [hchoice]
                  exact choices_canonical_mem_ne db hcan x hx)
            have hdb2anon : db2.anon_votes = db.anon_votes ++
                [{ election := election.id, position := pid, candidate := cid,
                   vote_hash := H (toString election.id ++ ":" ++ toString pid ++ ":"
                     ++ toString cid ++ ":" ++ toString now),
                   created_at := now }] := by
              rw [← hdb2] at hfr
              rw [hfr.1, hdb1, hchoice, hbal_el]
            have hdb2choices : db2.choices = db.choices
                ++ [{ choice with anonymized := true }] := by
              rw [← hdb2] at hfr
              rw [hfr.2, hflag]
            have hdb2can : ChoicesCanonical db2 := by
              intro i hi
              rw [List.getElem_of_eq hdb2choices hi]
              exact canonical_append db.choices _ hcan (by rw [hchoice]) i
                (by rw [← hdb2choices]; exact hi)
            have hdb2find : db2.ballots.find? (fun b => decide (b.id = ballot_id))
                = some bal := by
              have hpres := anonymize_preserves H now db1 choice
              rw [← hdb2] at hpres
              rw [hpres.2.2.2.2.2.1, hdb1]
              exact hfind
            obtain ⟨ihanon, ⟨newC, hnewC, hnewClen, hnewCflag⟩, ihcan⟩ :=
              ih db2 db3' tr' hr hdb2can hdb2find
            refine ⟨?_, ⟨{ choice with anonymized := true } :: newC, ?_, ?_, ?_⟩, ihcan⟩
            · rw [ihanon, hdb2anon]
              simp
            · rw [hnewC, hdb2choices]
              simp
            · simp [hnewClen]
            · intro x hx
              rcases List.mem_cons.mp hx with hx1 | hx2
              · rw [hx1, hchoice]
                exact ⟨rfl, rfl⟩
              · exact hnewCflag x hx2

/-- With the throttle passed and the serializer checks satisfied, `submit` is
the atomic transaction wrapped in the rollback boundary. -/
theorem submit_eq_txn (H : String → String) (db : DB) (now : Int)
    (user election_id : Nat) (votes : List (Nat × Nat)) (code : String)
    (el : SchoolElection)
    (hfind : db.elections.find? (fun e => decide (e.id = election_id)) = some el)
    (hact : el.is_active_now now = true)
    (hvoted : db.ballots.any (fun b => decide (b.user = user)
      && decide (b.election = el.id)) = false) :
    submit H db now false user election_id votes code =
      match submitTxn H db now user el votes code with
      | (.ok (db', rcode), tr) =>
        { db := db', error := none, receipt_code := some rcode,
          trace := .checkThrottle :: .checkElectionActive :: .checkAlreadyVoted :: tr }
      | (.error e, tr) =>
        { db := db, error := some e, receipt_code := none,
          trace := .checkThrottle :: .checkElectionActive :: .checkAlreadyVoted :: tr } := by
  rw [submit]
  simp only [Bool.false_eq_true, if_false, hfind]
  rw [if_neg (by simp [hact]), if_neg (by simp [hvoted])]

/-- Shape of a committed transaction: receipt and ballot appended with fresh
auto-increment ids, then the vote loop, then the activity-log row. -/
theorem submitTxn_ok_shape (H : String → String) (db : DB) (now : Int)
    (user : Nat) (el : SchoolElection) (votes : List (Nat × Nat)) (code : String)
    (db' : DB) (rcode : String) (tr : List Ev)
    (h : submitTxn H db now user el votes code = (.ok (db', rcode), tr)) :
    ∃ db3 tr0,
      (db.receipts.any (fun r => decide (r.receipt_code = code)
        || (decide (r.user = user) && decide (r.election = el.id))) = false) ∧
      (db.ballots.any (fun b => decide (b.user = user)
        && decide (b.election = el.id)) = false) ∧
      processVotes H now el db.ballots.length
        (txnStart H db now user el.id code) votes = (.ok db3, tr0) ∧
      db' = { db3 with activity_log := db3.activity_log
        ++ [{ user := user, action := "vote", resource_id := el.id }] } ∧
      rcode = code ∧
      tr = .writeReceipt :: .writeBallot :: (tr0 ++ [.writeActivityLog]) := by
  by_cases hrc : db.receipts.any (fun r => decide (r.receipt_code = code)
      || (decide (r.user = user) && decide (r.election = el.id))) = true
  · rw [submitTxn, if_pos hrc] at h
    simp at h
  · rw [submitTxn, if_neg hrc] at h
    by_cases hbc : db.ballots.any (fun b => decide (b.user = user)
        && decide (b.election = el.id)) = true
    · rw [if_pos hbc] at h
      simp at h
    · rw [if_neg hbc] at h
      rcases hpv : processVotes H now el db.ballots.length
          (txnStart H db now user el.id code) votes with ⟨res, tr0⟩
      rw [hpv] at h
      cases res with
      | ok db3 =>
        simp only [Prod.mk.injEq, Except.ok.injEq] at h
        obtain ⟨⟨hdb', hrcode⟩, htr⟩ := h
        exact ⟨db3, tr0, by simpa using hrc, by simpa using hbc, rfl,
          hdb'.symm, hrcode.symm, htr.symm⟩
      | error e => simp at h

/-- Shape of a rolled-back transaction: the error and the trace of the events
that executed before the failure. -/
theorem submitTxn_error_shape (H : String → String) (db : DB) (now : Int)
    (user : Nat) (el : SchoolElection) (votes : List (Nat × Nat)) (code : String)
    (e : SubmitError) (tr : List Ev)
    (h : submitTxn H db now user el votes code = (.error e, tr)) :
    tr = [] ∨ tr = [.writeReceipt] ∨
    ∃ tr0, tr = .writeReceipt :: .writeBallot :: tr0 ∧
      processVotes H now el db.ballots.length
        (txnStart H db now user el.id code) votes = (.error e, tr0) := by
  by_cases hrc : db.receipts.any (fun r => decide (r.receipt_code = code)
      || (decide (r.user = user) && decide (r.election = el.id))) = true
  · rw [submitTxn, if_pos hrc] at h
    simp only [Prod.mk.injEq] at h
    exact Or.inl h.2.symm
  · rw [submitTxn, if_neg hrc] at h
    by_cases hbc : db.ballots.any (fun b => decide (b.user = user)
        && decide (b.election = el.id)) = true
    · rw [if_pos hbc] at h
      simp only [Prod.mk.injEq] at h
      exact Or.inr (Or.inl h.2.symm)
    · rw [if_neg hbc] at h
      rcases hpv : processVotes H now el db.ballots.length
          (txnStart H db now user el.id code) votes with ⟨res, tr0⟩
      rw [hpv] at h
      cases res with
      | ok db3 => simp at h
      | error e' =>
        simp only [Prod.mk.injEq, Except.error.injEq] at h
        refine Or.inr (Or.inr ⟨tr0, h.2.symm, ?_⟩)
        rw [h.1]

/-- Shape of a successful submission. -/
theorem submit_success_shape (H : String → String) (db : DB) (now : Int)
    (throttled : Bool) (user election_id : Nat) (votes : List (Nat × Nat))
    (code : String)
    (h : (submit H db now throttled user election_id votes code).error = none) :
    ∃ el db3 tr0,
      throttled = false ∧
      db.elections.find? (fun e => decide (e.id = election_id)) = some el ∧
      el.is_active_now now = true ∧
      db.ballots.any (fun b => decide (b.user = user)
        && decide (b.election = el.id)) = false ∧
      db.receipts.any (fun r => decide (r.receipt_code = code)
        || (decide (r.user = user) && decide (r.election = el.id))) = false ∧
      processVotes H now el db.ballots.length
        (txnStart H db now user el.id code) votes = (.ok db3, tr0) ∧
      (submit H db now throttled user election_id votes code).db
        = { db3 with activity_log := db3.activity_log
            ++ [{ user := user, action := "vote", resource_id := el.id }] } ∧
      (submit H db now throttled user election_id votes code).receipt_code
        = some code := by
  by_cases ht : throttled
  · simp [submit, ht] at h
  · have ht' : throttled = false := by simpa using ht
    subst ht'
    cases hfind : db.elections.find? (fun e => decide (e.id = election_id)) with
    | none => simp [submit, hfind] at h
    | some el =>
      by_cases hact : el.is_active_now now = true
      · by_cases hvoted : db.ballots.any (fun b => decide (b.user = user)
            && decide (b.election = el.id)) = true
        · rw [submit] at h
          simp only [Bool.false_eq_true, if_false, hfind] at h
          rw [if_neg (by simp [hact]), if_pos hvoted] at h
          simp at h
        · have hvoted' : db.ballots.any (fun b => decide (b.user = user)
              && decide (b.election = el.id)) = false := by simpa using hvoted
          have heq := submit_eq_txn H db now user election_id votes code el
            hfind hact hvoted'
          rcases htxn : submitTxn H db now user el votes code with ⟨res, tr⟩
          cases res with
          | ok pair =>
            rcases pair with ⟨db', rcode⟩
            rw [htxn] at heq
            obtain ⟨db3, tr0, hrc, _, hpv, hdb', hrcode, _⟩ :=
              submitTxn_ok_shape H db now user el votes code db' rcode tr htxn
            refine ⟨el, db3, tr0, rfl, rfl, hact, hvoted', hrc, hpv, ?_, ?_⟩
            · rw [heq, hdb']
            · rw [heq, hrcode]
          | error e' =>
            rw [htxn] at heq
            rw [heq] at h
            simp at h
      · rw [submit] at h
        simp only [Bool.false_eq_true, if_false, hfind] at h
        rw [if_pos (by simpa using hact)] at h
        simp at h

/-! ### Helpers for the results view -/

theorem string_length_take (s : String) (n : Nat) :
    (s.take n).length = min n s.length := by
  have h1 : (s.take n).length = (s.take n).data.length := rfl
  rw [h1, String.data_take, List.length_take]
  rfl

theorem option_eq_some_getD {β : Type} (o : Option β) (d : β)
    (h : o.isSome = true) : o = some (o.getD d) := by
  cases o with
  | none => simp at h
  | some x => rfl

theorem list_getD_mem {β : Type} (l : List β) (d : β) (h : 0 < l.length) :
    l.getD 0 d ∈ l := by
  cases l with
  | nil => simp at h
  | cons x t => exact List.mem_cons_self x t

theorem assignRanks_length (election_ended : Bool) (l : List CandidateResult) :
    (assignRanks election_ended l).length = l.length := by
  simp [assignRanks, List.enum_length]

theorem assignRanks_getElem (election_ended : Bool) (l : List CandidateResult)
    (i : Nat) (hi : i < l.length) (hi' : i < (assignRanks election_ended l).length) :
    (assignRanks election_ended l)[i] =
      { l[i] with
        rank := some (i + 1)
        is_winner := election_ended && decide (i + 1 = 1)
          && decide (0 < (l[i]).vote_count) } := by
  simp only [assignRanks, List.getElem_map, List.getElem_enum]

/-- Every candidate entry of `assignRanks` comes from an index of the sorted
list, with rank `i + 1` and the winner flag computed from that index. -/
theorem assignRanks_mem_elim (election_ended : Bool) (l : List CandidateResult)
    (c : CandidateResult) (hc : c ∈ assignRanks election_ended l) :
    ∃ (i : Nat) (hi : i < l.length),
      c = { l[i] with
        rank := some (i + 1)
        is_winner := election_ended && decide (i + 1 = 1)
          && decide (0 < (l[i]).vote_count) } := by
  rcases List.mem_iff_getElem.mp hc with ⟨i, hi, hgi⟩
  have hil : i < l.length := by
    have := hi
    rw [assignRanks_length] at this
    exact this
  refine ⟨i, hil, ?_⟩
  rw [← hgi, assignRanks_getElem election_ended l i hil hi]

/-- Eliminator for a successful `electionResults` response. -/
theorem electionResults_some_elim (db : DB) (now : Int) (election_id : Nat)
    (r : ElectionResultsResponse) (h : electionResults db now election_id = some r) :
    ∃ el, db.elections.find? (fun e => decide (e.id = election_id)) = some el ∧
      r.election_ended = el.is_finished now ∧
      r.election_title = el.title ∧
      ∀ p ∈ r.positions, ∃ pos : SchoolPosition,
        p.position_id = pos.id ∧
        p.total_votes = positionTotalVotes db el.id pos.id ∧
        p.candidates = assignRanks (el.is_finished now)
          (SortingAlgorithm.quicksort (fun c => (c.vote_count : Int)) true
            (buildCandidatesData db el.id pos.id)) := by
  rw [electionResults] at h
  cases hfind : db.elections.find? (fun e => decide (e.id = election_id)) with
  | none => rw [hfind] at h; simp at h
  | some el =>
    rw [hfind] at h
    simp only [Option.some.injEq] at h
    refine ⟨el, rfl, ?_, ?_, ?_⟩
    · rw [← h]
    · rw [← h]
    · intro p hp
      rw [← h] at hp
      simp only at hp
      rcases List.mem_filterMap.mp hp with ⟨ep, _, hep⟩
      cases hpos : db.positions.find? (fun q => decide (q.id = ep.position)) with
      | none => rw [hpos] at hep; simp at hep
      | some pos =>
        rw [hpos] at hep
        simp only [Option.some.injEq] at hep
        exact ⟨pos, by rw [← hep], by rw [← hep], by rw [← hep]⟩

/-- Every candidate entry of `buildCandidatesData` carries the percentage
computed from its own vote count and the position's total. -/
theorem buildCandidatesData_mem_elim (db : DB) (election_id position_id : Nat)
    (c : CandidateResult) (hc : c ∈ buildCandidatesData db election_id position_id) :
    c.vote_count = positionVoteCount db election_id position_id c.candidate_id ∧
    c.percentage = (if 0 < positionTotalVotes db election_id position_id then
      round2 ((c.vote_count : ℚ)
        / (positionTotalVotes db election_id position_id : ℚ) * 100) else 0) := by
  rcases List.mem_map.mp hc with ⟨cd, _, hcd⟩
  subst hcd
  exact ⟨rfl, rfl⟩

/-- At most one ballot per `(user, election)` pair. -/
def BallotAtMostOne (db : DB) : Prop :=
  ∀ (u e : Nat),
    (db.ballots.filter (fun b => decide (b.user = u) && decide (b.election = e))).length ≤ 1

/-! ### Concrete fixtures for witnesses and counterexamples -/

/-- A concrete digest function for witness instantiations (the development is
parametric in the digest; determinism is all the code relies on). -/
def idH : String → String := fun s => s

def elFix : SchoolElection :=
  { id := 1, title := "SY 2025-2026", start_date := 0, end_date := 10,
    is_active := true }

def dbFix : DB :=
  { elections := [elFix]
    positions := [{ id := 1, name := "President", display_order := 0 }]
    election_positions := [{ election := 1, position := 1, order := 0,
                             is_enabled := true }]
    candidates := [{ id := 1, election := 1, position := 1, is_active := true },
                   { id := 2, election := 1, position := 1, is_active := true },
                   { id := 3, election := 1, position := 1, is_active := true }]
    receipts := []
    ballots := []
    choices := []
    anon_votes := []
    activity_log := [] }

def codeFix : String := "0123456789abcdef0123456789abcdef01234567"

def codeFix2 : String := "9876543210abcdef0123456789abcdef01234567"

/-- The database after a committed submission by voter 7 in election 1. -/
def dbVoted : DB := (submit idH dbFix 5 false 7 1 [(1, 2)] codeFix).db

/-- Election 1 with candidates 1 and 2 tied at one vote and candidate 3 at two
votes; candidates were inserted in id order 1, 2, 3. -/
def dbTie : DB :=
  { dbFix with anon_votes :=
      [{ election := 1, position := 1, candidate := 1, vote_hash := "h1", created_at := 1 },
       { election := 1, position := 1, candidate := 2, vote_hash := "h2", created_at := 1 },
       { election := 1, position := 1, candidate := 3, vote_hash := "h3", created_at := 1 },
       { election := 1, position := 1, candidate := 3, vote_hash := "h4", created_at := 2 }] }

/-- The results payload for `dbTie` at a time after the election end. -/
def rTie : ElectionResultsResponse := (electionResults dbTie 20 1).getD default

/-- Its single position block. -/
def pTie : PositionResult := rTie.positions.getD 0 default

def balFix : Ballot :=
  { id := 0, user := 7, election := 1, receipt := 0, submitted_at := 5 }

def chFix : VoteChoice :=
  { id := 0, ballot := 0, position := 1, candidate := 2, anonymized := false }

def chFixDone : VoteChoice :=
  { id := 0, ballot := 0, position := 1, candidate := 2, anonymized := true }

def dbBal : DB := { dbFix with ballots := [balFix], choices := [chFix] }

/-! ### Claim theorems -/

/-- C1: ballot submission is atomic — if `submit` fails at any step (receipt
creation, ballot creation, vote-choice creation, or anonymization), then
afterwards no Ballot, no Receipt, no VoteChoice, and no AnonVote created by
that attempt is observable: the state is exactly as before the attempt. -/
theorem submit_atomic_rollback (H : String → String) (db : DB) (now : Int)
    (throttled : Bool) (user election_id : Nat) (votes : List (Nat × Nat))
    (code : String) (e : SubmitError)
    (h : (submit H db now throttled user election_id votes code).error = some e) :
    (submit H db now throttled user election_id votes code).db.ballots = db.ballots ∧
    (submit H db now throttled user election_id votes code).db.receipts = db.receipts ∧
    (submit H db now throttled user election_id votes code).db.choices = db.choices ∧
    (submit H db now throttled user election_id votes code).db.anon_votes
      = db.anon_votes := by
  rw [submit_error_db_eq H db now throttled user election_id votes code e h]
  exact ⟨rfl, rfl, rfl, rfl⟩

/-- Witness for C1: a submission whose first pair is valid (so the receipt,
ballot, one vote choice and one anonymized vote were written) and whose second
pair is invalid fails after those writes, yet nothing survives. -/
theorem submit_atomic_rollback_witness :
    (submit idH dbFix 5 false 7 1 [(1, 2), (1, 99)] codeFix).error
      = some (.invalidChoice 1 99) ∧
    ((submit idH dbFix 5 false 7 1 [(1, 2), (1, 99)] codeFix).db.ballots
        = dbFix.ballots ∧
      (submit idH dbFix 5 false 7 1 [(1, 2), (1, 99)] codeFix).db.receipts
        = dbFix.receipts ∧
      (submit idH dbFix 5 false 7 1 [(1, 2), (1, 99)] codeFix).db.choices
        = dbFix.choices ∧
      (submit idH dbFix 5 false 7 1 [(1, 2), (1, 99)] codeFix).db.anon_votes
        = dbFix.anon_votes) :=
  ⟨by decide, submit_atomic_rollback idH dbFix 5 false 7 1 [(1, 2), (1, 99)]
    codeFix (.invalidChoice 1 99) (by decide)⟩

/-- C5 counterexample: the claim asserts the active window is half-open
`[start, end)` and a submission at the end time fails with
`ElectionNotActive`.  The code's `is_active_now` uses the closed interval
`start <= now <= end`: at `now = end_date = 10` the election reports active
and a full submission succeeds. -/
theorem submit_at_end_time_succeeds_cex :
    elFix.end_date = 10 ∧
    elFix.is_active_now 10 = true ∧
    (submit idH dbFix 10 false 7 1 [(1, 2)] codeFix).error = none := by
  refine ⟨rfl, by decide, by decide⟩

/-- C5 (amended): the activation check is the closed interval — the check
holds iff `is_active` and `start ≤ now ≤ end`; a submission strictly after the
end time fails with `ElectionNotActive` and creates nothing. -/
theorem active_window_closed_spec :
    (∀ (e : SchoolElection) (now : Int),
      e.is_active_now now = true ↔
        (e.is_active = true ∧ e.start_date ≤ now ∧ now ≤ e.end_date)) ∧
    (∀ (H : String → String) (db : DB) (now : Int) (user election_id : Nat)
        (votes : List (Nat × Nat)) (code : String) (el : SchoolElection),
      db.elections.find? (fun x => decide (x.id = election_id)) = some el →
      el.end_date < now →
      (submit H db now false user election_id votes code).error
          = some .electionNotActive ∧
        (submit H db now false user election_id votes code).db = db) := by
  constructor
  · intro e now
    simp [SchoolElection.is_active_now, Bool.and_eq_true, and_assoc]
  · intro H db now user election_id votes code el hfind hlate
    have hact : el.is_active_now now = false := by
      simp only [SchoolElection.is_active_now, Bool.and_eq_false_iff]
      right
      simpa using not_le.mpr hlate
    rw [submit]
    simp only [Bool.false_eq_true, if_false, hfind]
    rw [if_pos hact]
    exact ⟨rfl, rfl⟩

/-- Witness for C5 (amended): at `now = 11 > end_date = 10` the submission is
rejected as `ElectionNotActive` with the database unchanged. -/
theorem active_window_closed_spec_witness :
    (submit idH dbFix 11 false 7 1 [(1, 2)] codeFix).error
        = some .electionNotActive ∧
      (submit idH dbFix 11 false 7 1 [(1, 2)] codeFix).db = dbFix :=
  active_window_closed_spec.2 idH dbFix 11 7 1 [(1, 2)] codeFix elFix
    (by decide) (by decide)

/-- C6 counterexample: the claim asserts that in every submission failing with
`InvalidChoice`, no persistence step executes before the failing check.  In
the code the choice validation runs inside the transaction, after the Receipt
and Ballot inserts: here the trace shows `writeReceipt` and `writeBallot`
executing before the failing `checkChoice` (the transaction then rolls back). -/
theorem invalid_choice_after_writes_cex :
    (submit idH dbFix 5 false 7 1 [(1, 99)] codeFix).error
      = some (.invalidChoice 1 99) ∧
    (submit idH dbFix 5 false 7 1 [(1, 99)] codeFix).trace
      = [.checkThrottle, .checkElectionActive, .checkAlreadyVoted,
         .writeReceipt, .writeBallot, .checkChoice 1 99] := by
  exact ⟨by decide, by decide⟩

/-- C6 (amended): the throttle, election-active and already-voted checks do
run before any persistence step (any trace containing a write starts with
exactly those three checks), but the choice validation runs inside the
transaction after the Receipt and Ballot inserts; a submission failing with
`InvalidChoice` is rolled back, leaving the state exactly as before. -/
theorem prechecks_before_writes_invalid_rolls_back :
    (∀ (H : String → String) (db : DB) (now : Int) (throttled : Bool)
        (user election_id : Nat) (votes : List (Nat × Nat)) (code : String),
      (∃ ev ∈ (submit H db now throttled user election_id votes code).trace,
        ev.isWrite = true) →
      (submit H db now throttled user election_id votes code).trace.take 3
        = [.checkThrottle, .checkElectionActive, .checkAlreadyVoted]) ∧
    (∀ (H : String → String) (db : DB) (now : Int) (throttled : Bool)
        (user election_id : Nat) (votes : List (Nat × Nat)) (code : String)
        (pid cid : Nat),
      (submit H db now throttled user election_id votes code).error
        = some (.invalidChoice pid cid) →
      (submit H db now throttled user election_id votes code).db = db) := by
  constructor
  · intro H db now throttled user election_id votes code hex
    rcases hex with ⟨ev, hev, hw⟩
    by_cases ht : throttled
    · simp [submit, ht] at hev
      rw [hev] at hw
      simp [Ev.isWrite] at hw
    · have ht' : throttled = false := by simpa using ht
      subst ht'
      cases hfind : db.elections.find? (fun e => decide (e.id = election_id)) with
      | none =>
        simp [submit, hfind] at hev
        rw [hev] at hw
        simp [Ev.isWrite] at hw
      | some el =>
        by_cases hact : el.is_active_now now = true
        · by_cases hvoted : db.ballots.any (fun b => decide (b.user = user)
              && decide (b.election = el.id)) = true
          · rw [submit]
            simp only [Bool.false_eq_true, if_false, hfind]
            rw [if_neg (by simp [hact]), if_pos hvoted]
            rfl
          · have hvoted' : db.ballots.any (fun b => decide (b.user = user)
                && decide (b.election = el.id)) = false := by simpa using hvoted
            have heq := submit_eq_txn H db now user election_id votes code el
              hfind hact hvoted'
            rw [heq]
            rcases htxn : submitTxn H db now user el votes code with ⟨res, tr⟩
            cases res with
            | ok pair =>
              rcases pair with ⟨db', rcode⟩
              rfl
            | error e' => rfl
        · rw [submit] at hev
          simp only [Bool.false_eq_true, if_false, hfind] at hev
          rw [if_pos (by simpa using hact)] at hev
          simp at hev
          rcases hev with h | h <;> rw [h] at hw <;> simp [Ev.isWrite] at hw
  · intro H db now throttled user election_id votes code pid cid h
    exact submit_error_db_eq H db now throttled user election_id votes code
      (.invalidChoice pid cid) h

/-- Witness for C6 (amended), at the concrete failing submission of the
counterexample: the three checks open the trace, and the database is rolled
back unchanged. -/
theorem prechecks_before_writes_witness :
    (submit idH dbFix 5 false 7 1 [(1, 99)] codeFix).trace.take 3
        = [.checkThrottle, .checkElectionActive, .checkAlreadyVoted] ∧
      (submit idH dbFix 5 false 7 1 [(1, 99)] codeFix).db = dbFix :=
  ⟨prechecks_before_writes_invalid_rolls_back.1 idH dbFix 5 false 7 1 [(1, 99)]
      codeFix ⟨.writeReceipt, by decide, rfl⟩,
    prechecks_before_writes_invalid_rolls_back.2 idH dbFix 5 false 7 1 [(1, 99)]
      codeFix 1 99 (by decide)⟩

/-- C2: at most one Ballot ever exists per (voter, election).  A second submit
for the same pair after a committed first one (election still active, throttle
passed) fails with `AlreadyVoted` and creates nothing; and every submission —
successful or not — preserves the at-most-one-ballot invariant. -/
theorem ballot_uniqueness :
    (∀ (H : String → String) (db : DB) (now : Int) (user election_id : Nat)
        (votes : List (Nat × Nat)) (code : String) (el : SchoolElection),
      db.elections.find? (fun e => decide (e.id = election_id)) = some el →
      el.is_active_now now = true →
      (∃ b ∈ db.ballots, b.user = user ∧ b.election = el.id) →
      (submit H db now false user election_id votes code).error
          = some .alreadyVoted ∧
        (submit H db now false user election_id votes code).db = db) ∧
    (∀ (H : String → String) (db : DB) (now : Int) (throttled : Bool)
        (user election_id : Nat) (votes : List (Nat × Nat)) (code : String),
      BallotAtMostOne db →
      BallotAtMostOne (submit H db now throttled user election_id votes code).db) := by
  constructor
  · intro H db now user election_id votes code el hfind hact hex
    have hany : db.ballots.any (fun b => decide (b.user = user)
        && decide (b.election = el.id)) = true := by
      rcases hex with ⟨b, hb, hu, he⟩
      exact List.any_eq_true.mpr ⟨b, hb, by simp [hu, he]⟩
    rw [submit]
    simp only [Bool.false_eq_true, if_false, hfind]
    rw [if_neg (by simp [hact]), if_pos hany]
    exact ⟨rfl, rfl⟩
  · intro H db now throttled user election_id votes code hinv
    cases herr : (submit H db now throttled user election_id votes code).error with
    | some e =>
      rw [submit_error_db_eq H db now throttled user election_id votes code e herr]
      exact hinv
    | none =>
      obtain ⟨el, db3, tr0, _, _, _, hvoted, _, hpv, hdb, _⟩ :=
        submit_success_shape H db now throttled user election_id votes code herr
      have hcomp := processVotes_ok_components H now el db.ballots.length votes
        (txnStart H db now user el.id code) db3 tr0 hpv
      have hb3 : db3.ballots = db.ballots ++ [newBallot db now user el.id] := by
        rw [hcomp.2.2.2.2.2.1]
        rfl
      intro u ev
      rw [hdb]
      have hlog : ({ db3 with activity_log := db3.activity_log ++
          [{ user := user, action := "vote", resource_id := el.id }] } : DB).ballots
          = db3.ballots := rfl
      rw [hlog, hb3, List.filter_append]
      by_cases hcase : u = user ∧ ev = el.id
      · have hnil : db.ballots.filter (fun b => decide (b.user = u)
            && decide (b.election = ev)) = [] := by
          rw [List.filter_eq_nil_iff]
          intro b hb
          have hf := List.any_eq_false.mp hvoted b hb
          rw [hcase.1, hcase.2]
          simpa using hf
        rw [hnil]
        simpa using le_trans (List.length_filter_le _ _) (by simp)
      · have hnb : List.filter (fun b => decide (b.user = u)
            && decide (b.election = ev)) [newBallot db now user el.id] = [] := by
          rw [List.filter_eq_nil_iff]
          intro b hb
          simp only [List.mem_singleton] at hb
          subst hb
          simp only [newBallot, Bool.and_eq_true, decide_eq_true_iff, not_and]
          intro h1 h2
          exact hcase ⟨h1.symm, h2.symm⟩
        rw [hnb]
        simpa using hinv u ev

/-- Witness for C2: after voter 7's committed ballot in election 1, a second
submission attempt fails with `AlreadyVoted`, creates nothing, and the
invariant holds on the resulting database. -/
theorem ballot_uniqueness_witness :
    ((submit idH dbVoted 6 false 7 1 [(1, 3)] codeFix2).error
        = some .alreadyVoted ∧
      (submit idH dbVoted 6 false 7 1 [(1, 3)] codeFix2).db = dbVoted) ∧
    BallotAtMostOne (submit idH dbVoted 6 false 7 1 [(1, 3)] codeFix2).db :=
  ⟨ballot_uniqueness.1 idH dbVoted 6 7 1 [(1, 3)] codeFix2 elFix (by decide)
      (by decide) (by decide),
    ballot_uniqueness.2 idH dbVoted 6 false 7 1 [(1, 3)] codeFix2
      (fun u ev => le_trans (List.length_filter_le _ _) (by decide))⟩

/-- C3 counterexample: the claim asserts `verify` returns `valid = false` for
*every* string that is not a stored receipt code.  The serializer rejects any
code shorter than 32 characters with a format validation error (an HTTP 400
without a `valid` field), not the `valid = false` response: the empty string
is not a stored code, yet the endpoint answers `formatError`, not `invalid`. -/
theorem verify_format_gate_cex :
    verifyReceipt idH dbFix "" = .formatError ∧
    verifyReceipt idH dbFix "" ≠ .invalid ∧
    ¬ (∃ r ∈ dbFix.receipts, r.receipt_code = "") :=
  ⟨by decide, by decide, by decide⟩

/-- C3 (amended): for every receipt issued by a successful submission (whose
40-character generated code lies in the accepted 32–64 length window),
`verify(receipt_code)` returns valid with that receipt's election title and
issue time; and every string in the accepted length window that is not a
stored receipt code yields `valid = false`.  Strings outside the window are
rejected by the serializer's format validation instead. -/
theorem receipt_verify_round_trip :
    (∀ (H : String → String) (db : DB) (now : Int) (throttled : Bool)
        (user election_id : Nat) (votes : List (Nat × Nat)) (code : String)
        (el : SchoolElection),
      (submit H db now throttled user election_id votes code).error = none →
      32 ≤ code.length → code.length ≤ 64 →
      db.elections.find? (fun e => decide (e.id = election_id)) = some el →
      verifyReceipt H (submit H db now throttled user election_id votes code).db
          code = .valid el.title now) ∧
    (∀ (H : String → String) (db : DB) (code : String),
      32 ≤ code.length → code.length ≤ 64 →
      (∀ r ∈ db.receipts, r.receipt_code ≠ code) →
      verifyReceipt H db code = .invalid) := by
  constructor
  · intro H db now throttled user election_id votes code el h hlen1 hlen2 hfind
    obtain ⟨el', db3, tr0, _, hfind', _, _, hrc, hpv, hdb, _⟩ :=
      submit_success_shape H db now throttled user election_id votes code h
    have hel : el' = el := by
      rw [hfind] at hfind'
      exact (Option.some.inj hfind').symm
    subst hel
    have hcomp := processVotes_ok_components H now el' db.ballots.length votes
      (txnStart H db now user el'.id code) db3 tr0 hpv
    have hrecs2 : (submit H db now throttled user election_id votes code).db.receipts
        = db.receipts ++ [newReceipt H db now user el'.id code] := by
      rw [hdb]
      show db3.receipts = _
      rw [hcomp.2.2.2.2.1]
      rfl
    have hels2 : (submit H db now throttled user election_id votes code).db.elections
        = db.elections := by
      rw [hdb]
      show db3.elections = _
      rw [hcomp.1]
      rfl
    rw [verifyReceipt]
    rw [if_neg (by simp; omega)]
    rw [hrecs2]
    have hold : ∀ r ∈ db.receipts,
        (fun r => decide (r.receipt_code = code)) r = false := by
      intro r hr
      have h' := List.any_eq_false.mp hrc r hr
      simp only [Bool.or_eq_true, Bool.and_eq_true, decide_eq_true_iff,
        not_or] at h'
      exact decide_eq_false h'.1
    rw [find?_append_new _ _ _ hold (by simp [newReceipt])]
    dsimp only
    have hverify : (newReceipt H db now user el'.id code).verify_receipt H code
        = true := by
      simp [VoteReceipt.verify_receipt, newReceipt, hash_receipt]
    rw [if_pos hverify]
    have helid : el'.id = election_id := by
      have := List.find?_some hfind
      simpa using this
    simp only [newReceipt, helid]
    rw [hels2, hfind]
  · intro H db code h1 h2 hns
    rw [verifyReceipt]
    rw [if_neg (by simp; omega)]
    have hnone : db.receipts.find? (fun r => decide (r.receipt_code = code))
        = none := by
      rw [List.find?_eq_none]
      intro r hr
      simpa using hns r hr
    rw [hnone]

/-- Witness for C3: voter 7's committed receipt round-trips to the election's
title and issue time, and a well-formed but unknown code verifies invalid. -/
theorem receipt_verify_round_trip_witness :
    verifyReceipt idH dbVoted codeFix = .valid elFix.title 5 ∧
    verifyReceipt idH dbFix codeFix = .invalid :=
  ⟨receipt_verify_round_trip.1 idH dbFix 5 false 7 1 [(1, 2)] codeFix elFix
      (by decide) (by decide) (by decide) (by decide),
    receipt_verify_round_trip.2 idH dbFix codeFix (by decide) (by decide)
      (fun r hr => absurd hr (List.not_mem_nil r))⟩

theorem assignRanks_pairwise_vote_count (election_ended : Bool)
    (l : List CandidateResult)
    (hl : l.Pairwise (fun x y => (y.vote_count : Int) ≤ (x.vote_count : Int))) :
    (assignRanks election_ended l).Pairwise
      (fun a b => b.vote_count ≤ a.vote_count) := by
  rw [List.pairwise_iff_getElem] at hl ⊢
  intro i j hi hj hij
  have hi' : i < l.length := by
    have := hi
    rw [assignRanks_length] at this
    exact this
  have hj' : j < l.length := by
    have := hj
    rw [assignRanks_length] at this
    exact this
  rw [assignRanks_getElem election_ended l i hi' hi,
    assignRanks_getElem election_ended l j hj' hj]
  exact_mod_cast hl i j hi' hj' hij

/-- C4 counterexample: candidates are inserted in id order 1, 2, 3 with vote
counts 1, 1, 2.  A stable descending sort would list the tied candidates 1
and 2 in insertion order, giving ids `[3, 1, 2]`; the Lomuto quicksort
produces `[3, 2, 1]` — the tie's relative order is not preserved. -/
theorem results_tie_order_cex :
    (electionResults dbTie 20 1).map
        (fun r => r.positions.map (fun p => p.candidates.map
          (fun c => c.candidate_id))) = some [[3, 2, 1]] ∧
    (electionResults dbTie 20 1).map
        (fun r => r.positions.map (fun p => p.candidates.map
          (fun c => c.candidate_id))) ≠ some [[3, 1, 2]] :=
  ⟨by decide, by decide⟩

/-- C4 (amended): in `resultsFor`, the candidates of each position are sorted
descending by `vote_count` (and the quicksorted list is a permutation of its
input), but candidates with equal `vote_count` do not in general keep their
original relative order — the Lomuto quicksort is not stable. -/
theorem results_candidates_sorted_desc :
    (∀ (α : Type) [Inhabited α] (key : α → Int) (arr : List α),
      (SortingAlgorithm.quicksort key true arr).Pairwise
          (fun x y => key y ≤ key x) ∧
        (SortingAlgorithm.quicksort key true arr).Perm arr) ∧
    (∀ (db : DB) (now : Int) (election_id : Nat) (r : ElectionResultsResponse),
      electionResults db now election_id = some r →
      ∀ p ∈ r.positions,
        p.candidates.Pairwise (fun a b => b.vote_count ≤ a.vote_count)) := by
  constructor
  · intro α _ key arr
    exact ⟨SortingAlgorithm.quicksort_sorted key arr,
      SortingAlgorithm.quicksort_perm key arr⟩
  · intro db now election_id r h p hp
    obtain ⟨el, _, _, _, hpos⟩ := electionResults_some_elim db now election_id r h
    obtain ⟨pos, _, _, hcand⟩ := hpos p hp
    rw [hcand]
    exact assignRanks_pairwise_vote_count _ _
      (SortingAlgorithm.quicksort_sorted _ _)

/-- Witness for C4 (amended): the tied-votes fixture's position block comes
out sorted descending by vote count. -/
theorem results_candidates_sorted_desc_witness :
    pTie.candidates.Pairwise (fun a b => b.vote_count ≤ a.vote_count) :=
  results_candidates_sorted_desc.2 dbTie 20 1 rTie
    (option_eq_some_getD _ _ (by decide)) pTie (list_getD_mem _ _ (by decide))

/-- C7: in `resultsFor`, `is_winner` is true exactly when the candidate's rank
is 1, its vote count is strictly positive, and the election's end time has
passed (`election_ended = is_finished(now)`); while the election is not
finished, `is_winner` is false for every candidate even though counts and
ranks are returned. -/
theorem winner_flag_spec :
    ∀ (db : DB) (now : Int) (election_id : Nat) (r : ElectionResultsResponse),
      electionResults db now election_id = some r →
      (∀ el, db.elections.find? (fun e => decide (e.id = election_id)) = some el →
        r.election_ended = el.is_finished now) ∧
      (∀ p ∈ r.positions, ∀ c ∈ p.candidates,
        (c.is_winner = true ↔
          (c.rank = some 1 ∧ 0 < c.vote_count ∧ r.election_ended = true))) ∧
      (r.election_ended = false →
        ∀ p ∈ r.positions, ∀ c ∈ p.candidates, c.is_winner = false) := by
  intro db now election_id r h
  obtain ⟨el, hfind, hended, _, hpos⟩ :=
    electionResults_some_elim db now election_id r h
  refine ⟨?_, ?_, ?_⟩
  · intro el2 hfind2
    rw [hfind] at hfind2
    rw [hended, Option.some.inj hfind2]
  · intro p hp c hc
    obtain ⟨pos, _, _, hcand⟩ := hpos p hp
    rw [hcand] at hc
    obtain ⟨i, hi, hceq⟩ := assignRanks_mem_elim _ _ _ hc
    subst hceq
    constructor
    · intro hw
      simp only [Bool.and_eq_true, decide_eq_true_iff] at hw
      obtain ⟨⟨he, hi1⟩, hvc⟩ := hw
      refine ⟨by simp [hi1], hvc, ?_⟩
      rw [hended]
      exact he
    · rintro ⟨hrank, hvc, hend⟩
      have hi1 : i + 1 = 1 := by simpa using hrank
      rw [hended] at hend
      simp only [Bool.and_eq_true, decide_eq_true_iff]
      exact ⟨⟨hend, hi1⟩, hvc⟩
  · intro hnotend p hp c hc
    obtain ⟨pos, _, _, hcand⟩ := hpos p hp
    rw [hcand] at hc
    obtain ⟨i, hi, hceq⟩ := assignRanks_mem_elim _ _ _ hc
    subst hceq
    rw [hended] at hnotend
    simp [hnotend]

/-- The first (rank-1) candidate entry of the tied-votes fixture. -/
def cTie : CandidateResult := pTie.candidates.getD 0 default

/-- Witness for C7 at the concrete results fixture. -/
theorem winner_flag_spec_witness :
    cTie.is_winner = true ↔
      (cTie.rank = some 1 ∧ 0 < cTie.vote_count ∧ rTie.election_ended = true) :=
  (winner_flag_spec dbTie 20 1 rTie (option_eq_some_getD _ _ (by decide))).2.1
    pTie (list_getD_mem _ _ (by decide)) cTie (list_getD_mem _ _ (by decide))

/-- C8: both derived percentages are division-safe.  Every candidate's
percentage equals its vote count over the position total times 100 rounded to
two decimals, and is 0 whenever the total is 0; turnout equals voters over
the registered population times 100, and is 0 when the population is 0.
Neither computation divides when its denominator is zero. -/
theorem percentage_division_safe :
    (∀ (db : DB) (now : Int) (election_id : Nat) (r : ElectionResultsResponse),
      electionResults db now election_id = some r →
      ∀ p ∈ r.positions, ∀ c ∈ p.candidates,
        c.percentage = (if 0 < p.total_votes then
          round2 ((c.vote_count : ℚ) / (p.total_votes : ℚ) * 100) else 0) ∧
        (p.total_votes = 0 → c.percentage = 0)) ∧
    (∀ voters : Nat, calculate_turnout_percentage voters 0 = 0) ∧
    (∀ voters registered : Nat, registered ≠ 0 →
      calculate_turnout_percentage voters registered
        = round2 ((voters : ℚ) / (registered : ℚ) * 100)) := by
  refine ⟨?_, ?_, ?_⟩
  · intro db now election_id r h p hp c hc
    obtain ⟨el, _, _, _, hpos⟩ := electionResults_some_elim db now election_id r h
    obtain ⟨pos, _, htot, hcand⟩ := hpos p hp
    rw [hcand] at hc
    obtain ⟨i, hi, hceq⟩ := assignRanks_mem_elim _ _ _ hc
    have hmem0 : (SortingAlgorithm.quicksort (fun c => (c.vote_count : Int)) true
        (buildCandidatesData db el.id pos.id))[i]
        ∈ buildCandidatesData db el.id pos.id :=
      (SortingAlgorithm.quicksort_perm _ _).mem_iff.mp (List.getElem_mem hi)
    have hbc := buildCandidatesData_mem_elim db el.id pos.id _ hmem0
    subst hceq
    constructor
    · dsimp only
      rw [htot]
      exact hbc.2
    · intro h0
      have h0' : positionTotalVotes db el.id pos.id = 0 := by
        rw [← htot]
        exact h0
      dsimp only
      rw [hbc.2, if_neg (by omega)]
  · intro voters
    rw [calculate_turnout_percentage, if_pos rfl]
  · intro voters registered hr
    rw [calculate_turnout_percentage, if_neg hr]

/-- Witness for C8 at concrete inputs. -/
theorem percentage_division_safe_witness :
    cTie.percentage = (if 0 < pTie.total_votes then
      round2 ((cTie.vote_count : ℚ) / (pTie.total_votes : ℚ) * 100) else 0) ∧
    calculate_turnout_percentage 3 0 = 0 ∧
    calculate_turnout_percentage 1 2
      = round2 (((1 : Nat) : ℚ) / ((2 : Nat) : ℚ) * 100) :=
  ⟨(percentage_division_safe.1 dbTie 20 1 rTie (option_eq_some_getD _ _ (by decide))
      pTie (list_getD_mem _ _ (by decide)) cTie (list_getD_mem _ _ (by decide))).1,
    percentage_division_safe.2.1 3,
    percentage_division_safe.2.2 1 2 (by decide)⟩

/-- C9: `anonymize` is idempotent and complete.  On a not-yet-anonymized
choice it creates exactly one `AnonVote` carrying the choice's
`(election, position, candidate)` and flags the choice; on an already
anonymized choice it is a no-op creating nothing.  After a successful
submission (on a well-formed database) the anonymous-vote table grew by
exactly one row per submitted pair and no `VoteChoice` of the new ballot
remains with `anonymized = false`. -/
theorem anonymize_idempotent_complete :
    (∀ (H : String → String) (now : Int) (db : DB) (c : VoteChoice) (bal : Ballot),
      c.anonymized = false →
      db.ballots.find? (fun b => decide (b.id = c.ballot)) = some bal →
      (VoteChoice.anonymize H now db c).anon_votes = db.anon_votes ++
        [{ election := bal.election, position := c.position,
           candidate := c.candidate,
           vote_hash := H (toString bal.election ++ ":" ++ toString c.position
             ++ ":" ++ toString c.candidate ++ ":" ++ toString now),
           created_at := now }] ∧
      (c ∈ db.choices →
        { c with anonymized := true } ∈ (VoteChoice.anonymize H now db c).choices)) ∧
    (∀ (H : String → String) (now : Int) (db : DB) (c : VoteChoice),
      c.anonymized = true → VoteChoice.anonymize H now db c = db) ∧
    (∀ (H : String → String) (db : DB) (now : Int) (throttled : Bool)
        (user election_id : Nat) (votes : List (Nat × Nat)) (code : String),
      (submit H db now throttled user election_id votes code).error = none →
      ChoicesCanonical db → BallotsCanonical db → ChoicesBallotRefsValid db →
      (submit H db now throttled user election_id votes code).db.anon_votes.length
          = db.anon_votes.length + votes.length ∧
        (∀ x ∈ (submit H db now throttled user election_id votes code).db.choices,
          x.ballot = db.ballots.length → x.anonymized = true)) := by
  refine ⟨?_, ?_, ?_⟩
  · intro H now db c bal hanon hfind
    have hfr := anonymize_fresh H now db c bal hanon hfind
    refine ⟨hfr.1, ?_⟩
    intro hcmem
    rw [hfr.2]
    have hfc : ({ c with anonymized := true } : VoteChoice)
        = (fun x => if x.id = c.id then { x with anonymized := true } else x) c := by
      simp
    rw [hfc]
    exact List.mem_map_of_mem _ hcmem
  · intro H now db c hanon
    exact anonymize_noop H now db c hanon
  · intro H db now throttled user election_id votes code h hccan hbcan hrefs
    obtain ⟨el, db3, tr0, _, _, _, _, _, hpv, hdb, _⟩ :=
      submit_success_shape H db now throttled user election_id votes code h
    have htscan : ChoicesCanonical (txnStart H db now user el.id code) := hccan
    have hfindb : (txnStart H db now user el.id code).ballots.find?
        (fun b => decide (b.id = db.ballots.length))
        = some (newBallot db now user el.id) := by
      show (db.ballots ++ [newBallot db now user el.id]).find? _ = _
      apply find?_append_new
      · intro b hb
        rcases List.mem_iff_getElem.mp hb with ⟨i, hilen, hgi⟩
        have hid := hbcan i hilen
        rw [hgi] at hid
        apply decide_eq_false
        omega
      · simp [newBallot]
    obtain ⟨hanon3, ⟨newC, hnewC, hlenC, hflag⟩, _⟩ :=
      processVotes_anon_spec H now el db.ballots.length
        (newBallot db now user el.id) rfl votes
        (txnStart H db now user el.id code) db3 tr0 hpv htscan hfindb
    constructor
    · rw [hdb]
      show db3.anon_votes.length = _
      rw [hanon3]
      have hts : (txnStart H db now user el.id code).anon_votes = db.anon_votes := rfl
      rw [hts]
      simp
    · intro x hx hxb
      rw [hdb] at hx
      have hx3 : x ∈ db3.choices := hx
      rw [hnewC] at hx3
      rcases List.mem_append.mp hx3 with hold | hnew
      · have holdc : x ∈ db.choices := hold
        have := hrefs x holdc
        omega
      · exact (hflag x hnew).2

/-- Witness for C9 at concrete inputs: a fresh choice produces exactly one
anonymous vote and is flagged; an anonymized choice is untouched; a committed
one-vote submission grows the anonymous-vote table by exactly one. -/
theorem anonymize_idempotent_complete_witness :
    ((VoteChoice.anonymize idH 5 dbBal chFix).anon_votes = dbBal.anon_votes ++
      [{ election := balFix.election, position := chFix.position,
         candidate := chFix.candidate,
         vote_hash := idH (toString balFix.election ++ ":" ++ toString chFix.position
           ++ ":" ++ toString chFix.candidate ++ ":" ++ toString (5 : Int)),
         created_at := 5 }] ∧
      ({ chFix with anonymized := true }
        ∈ (VoteChoice.anonymize idH 5 dbBal chFix).choices)) ∧
    VoteChoice.anonymize idH 5 dbBal chFixDone = dbBal ∧
    (submit idH dbFix 5 false 7 1 [(1, 2)] codeFix).db.anon_votes.length
      = dbFix.anon_votes.length + 1 :=
  ⟨anonymize_idempotent_complete.1 idH 5 dbBal chFix balFix (by decide) (by decide)
      |>.imp_right (fun himp => himp (by decide)),
    anonymize_idempotent_complete.2.1 idH 5 dbBal chFixDone (by decide),
    (anonymize_idempotent_complete.2.2 idH dbFix 5 false 7 1 [(1, 2)] codeFix
      (by decide) (fun i hi => by simp [dbFix] at hi)
      (fun i hi => by simp [dbFix] at hi)
      (fun ch hch => by simp [dbFix] at hch)).1⟩

def rcptFix : VoteReceipt :=
  { id := 0, user := 7, election := 1, receipt_code := codeFix,
    receipt_hash := codeFix, created_at := 5 }

def rcptShort : VoteReceipt :=
  { id := 1, user := 7, election := 1, receipt_code := "abc",
    receipt_hash := "abc", created_at := 5 }

def u1Fix : String := "0123456789abcdef0123456789abcdef"

/-- C10: the masked-receipt accessor masks only codes longer than 16
characters — it returns the first 8 characters, an ellipsis, and the last 8
characters — while any code of 16 or fewer characters is returned in full;
generated codes are always 40 characters (32 hex characters of the first
uuid plus 8 of the second), so receipts produced by a submission are always
masked. -/
theorem masked_receipt_spec :
    (∀ r : VoteReceipt, 16 < r.receipt_code.length →
      r.get_masked_receipt = r.receipt_code.take 8 ++ "..."
        ++ r.receipt_code.drop (r.receipt_code.length - 8)) ∧
    (∀ r : VoteReceipt, r.receipt_code.length ≤ 16 →
      r.get_masked_receipt = r.receipt_code) ∧
    (∀ u1 u2 : String, u1.length = 32 → 8 ≤ u2.length →
      (generate_receipt_code u1 u2).length = 40) ∧
    (∀ (u1 u2 : String) (r : VoteReceipt), u1.length = 32 → 8 ≤ u2.length →
      r.receipt_code = generate_receipt_code u1 u2 →
      r.get_masked_receipt = r.receipt_code.take 8 ++ "..."
        ++ r.receipt_code.drop (r.receipt_code.length - 8)) := by
  have hmask : ∀ r : VoteReceipt, 16 < r.receipt_code.length →
      r.get_masked_receipt = r.receipt_code.take 8 ++ "..."
        ++ r.receipt_code.drop (r.receipt_code.length - 8) := by
    intro r h
    rw [VoteReceipt.get_masked_receipt, if_pos h]
  have hgen : ∀ u1 u2 : String, u1.length = 32 → 8 ≤ u2.length →
      (generate_receipt_code u1 u2).length = 40 := by
    intro u1 u2 h1 h2
    rw [generate_receipt_code, String.length_append, string_length_take, h1]
    omega
  refine ⟨hmask, ?_, hgen, ?_⟩
  · intro r h
    rw [VoteReceipt.get_masked_receipt, if_neg (by omega)]
  · intro u1 u2 r h1 h2 hcode
    apply hmask
    rw [hcode, hgen u1 u2 h1 h2]
    omega

/-- Witness for C10 at concrete inputs: a 40-character code is masked, a
3-character code is returned in full, and a generated code has length 40. -/
theorem masked_receipt_spec_witness :
    rcptFix.get_masked_receipt = rcptFix.receipt_code.take 8 ++ "..."
      ++ rcptFix.receipt_code.drop (rcptFix.receipt_code.length - 8) ∧
    rcptShort.get_masked_receipt = rcptShort.receipt_code ∧
    (generate_receipt_code u1Fix codeFix).length = 40 :=
  ⟨masked_receipt_spec.1 rcptFix (by decide),
    masked_receipt_spec.2.1 rcptShort (by decide),
    masked_receipt_spec.2.2.1 u1Fix codeFix (by decide) (by decide)⟩

end EBotar
